import Mathlib

set_option maxRecDepth 16384

/-!
Verification development for the markdown-to-structured-JSON processor
(`pdf_processor/jsonizer.py`).  The Python module is shallowly embedded:
every definition below is translated from the source; strings are modelled
as Lean `String`/`List Char` (the inputs of interest are ASCII, so the
ASCII fragments of Python's `\d`, `\s`, `\w` and `.lower()` are used).
Time-dependent values (`datetime.now().year`) are passed explicitly as a
`currentYear` parameter.
-/

/-- Whitespace characters stripped by Python's `str.strip()` / matched by `\s`
(ASCII fragment): space, tab, newline, carriage return, vertical tab, form feed. -/
def isPySpace (c : Char) : Bool :=
  c == ' ' || c == '\t' || c == '\n' || c == '\r' || c == '\x0b' || c == '\x0c'

/-- Word characters for Python's `\b` boundaries (`\w`, ASCII fragment). -/
def isWordChar (c : Char) : Bool :=
  c.isAlphanum || c == '_'

/-- Drop the longest all-`p` suffix of a list (the mirror of `List.dropWhile`).
Used to embed Python's right-side stripping (`str.strip()`, `str.rstrip('.')`). -/
def dropTrailWhile (p : Char → Bool) : List Char → List Char
  | [] => []
  | c :: cs =>
    let r := dropTrailWhile p cs
    if r.isEmpty then (if p c then [] else [c]) else c :: r

/-- Python `str.strip()` on a character list: remove trailing then leading whitespace. -/
def pyStripChars (l : List Char) : List Char :=
  (dropTrailWhile isPySpace l).dropWhile isPySpace

/-- Python `str.strip()`. -/
def pyStripS (s : String) : String :=
  String.mk (pyStripChars s.data)

/-- Does `p` lead the list `l` (i.e. is `p` a leading run of `l`)? -/
def listLeads : List Char → List Char → Bool
  | [], _ => true
  | _ :: _, [] => false
  | a :: as, b :: bs => a == b && listLeads as bs

/-- Python `needle in hay` substring test. -/
def containsSub (needle : List Char) : List Char → Bool
  | [] => listLeads needle []
  | c :: cs => listLeads needle (c :: cs) || containsSub needle cs

/-- Python `s.startswith(p)`. -/
def strStarts (p s : String) : Bool :=
  listLeads p.data s.data

/-- Python `'|' in line`. -/
def hasPipe (s : String) : Bool :=
  decide ('|' ∈ s.data)

/-- Python `'-' in line`. -/
def hasDash (s : String) : Bool :=
  decide ('-' ∈ s.data)

/-- Python `content.split(sep)` for a single-character separator
(every occurrence splits; empty pieces are kept). -/
def splitOnChar (sep : Char) : List Char → List (List Char)
  | [] => [[]]
  | c :: cs =>
    match splitOnChar sep cs with
    | cur :: rest => if c == sep then [] :: cur :: rest else (c :: cur) :: rest
    | [] => [[c]]

/-- Python `content.split('\n')`. -/
def splitLines (content : String) : List String :=
  (splitOnChar '\n' content.data).map String.mk

/-- Python `sep.join(parts)` on character lists. -/
def joinWith (sep : List Char) : List (List Char) → List Char
  | [] => []
  | [x] => x
  | x :: y :: xs => x ++ sep ++ joinWith sep (y :: xs)

/-- Python `'\n'.join(lines)` on strings. -/
def joinNl (lines : List String) : String :=
  String.mk (joinWith ['\n'] (lines.map String.data))

/-- Prefix of `hay` before the first occurrence of `needle`
(Python `hay.split(needle)[0]`; when `needle` does not occur, the whole of `hay`). -/
def splitNeedle (needle : List Char) : List Char → List Char
  | [] => []
  | c :: cs => if listLeads needle (c :: cs) then [] else c :: splitNeedle needle cs

/-- Numeric value of a digit string. -/
def digitsToInt (ds : List Char) : Int :=
  Int.ofNat (ds.foldl (fun n c => n * 10 + (c.toNat - '0'.toNat)) 0)

/-! ### Embedded regular-expression searches of `_parse_reference` and the line loop -/

/-- Lazy path part of `re.search(r'!\[(.*?)\]\((.*?)\)', line)`: consume up to the
first `)` and return the consumed prefix and the remainder. -/
def matchPath (acc : List Char) : List Char → Option (List Char × List Char)
  | [] => none
  | c :: cs => if c == ')' then some (acc.reverse, cs) else matchPath (c :: acc) cs

/-- Lazy alt part after `![`: find the earliest `](` whose continuation holds a `)`;
return the alt text and the path text. -/
def matchAlt (acc : List Char) : List Char → Option (List Char × List Char)
  | [] => none
  | c :: cs =>
    if c == ']' then
      match cs with
      | '(' :: rest =>
        match matchPath [] rest with
        | some (p, _) => some (acc.reverse, p)
        | none => matchAlt (c :: acc) cs
      | _ => matchAlt (c :: acc) cs
    else matchAlt (c :: acc) cs

/-- `re.search(r'!\[(.*?)\]\((.*?)\)', line)`: leftmost match, lazy groups;
returns `(alt_text, path)`. -/
def imgSearch : List Char → Option (List Char × List Char)
  | [] => none
  | c :: cs =>
    if c == '!' then
      match cs with
      | '[' :: rest =>
        match matchAlt [] rest with
        | some r => some r
        | none => imgSearch cs
      | _ => imgSearch cs
    else imgSearch cs

/-- `re.search(r'"([^"]+)"', ref_text)`: the first non-empty double-quoted substring. -/
def titleSearch : List Char → Option (List Char)
  | [] => none
  | c :: cs =>
    if c == '"' then
      let content := cs.takeWhile (fun d => d != '"')
      let rest := cs.dropWhile (fun d => d != '"')
      match rest with
      | _ :: _ => if content.isEmpty then titleSearch cs else some content
      | [] => none
    else titleSearch cs

/-- Group part of `re.search(r'doi:?\s*([10]\.\d+/[^\s]+)', ...)` tried right after a
(case-insensitive) `doi` label: optional `:`, whitespace, then one character `1` or `0`,
a dot, digits, `/`, and a non-space run.  Note `[10]` is a character class in the
source pattern, not the two-character string `10`. -/
def doiAfterLabel (s : List Char) : Option (List Char) :=
  let s1 := match s with
    | ':' :: r => r
    | _ => s
  let s2 := s1.dropWhile isPySpace
  match s2 with
  | a :: '.' :: more =>
    if a == '1' || a == '0' then
      let ds := more.takeWhile Char.isDigit
      let rest := more.dropWhile Char.isDigit
      if ds.isEmpty then none
      else
        match rest with
        | '/' :: tl =>
          let ns := tl.takeWhile (fun c => !(isPySpace c))
          if ns.isEmpty then none else some (a :: '.' :: (ds ++ '/' :: ns))
        | _ => none
    else none
  | _ => none

/-- `re.search(r'doi:?\s*([10]\.\d+/[^\s]+)', ref_text, re.IGNORECASE)`:
scan for a `doi` label whose continuation completes the pattern. -/
def doiSearch : List Char → Option (List Char)
  | [] => none
  | c :: cs =>
    if c.toLower == 'd' then
      match cs with
      | o :: i :: rest =>
        if o.toLower == 'o' && i.toLower == 'i' then
          match doiAfterLabel rest with
          | some r => some r
          | none => doiSearch cs
        else doiSearch cs
      | _ => doiSearch cs
    else doiSearch cs

/-- Digits part of `re.search(r'pmid:?\s*(\d+)', ...)` tried right after a `pmid` label. -/
def pmidAfterLabel (s : List Char) : Option (List Char) :=
  let s1 := match s with
    | ':' :: r => r
    | _ => s
  let s2 := s1.dropWhile isPySpace
  let ds := s2.takeWhile Char.isDigit
  if ds.isEmpty then none else some ds

/-- `re.search(r'pmid:?\s*(\d+)', ref_text, re.IGNORECASE)`. -/
def pmidSearch : List Char → Option (List Char)
  | [] => none
  | c :: cs =>
    if c.toLower == 'p' then
      match cs with
      | m :: i :: d :: rest =>
        if m.toLower == 'm' && i.toLower == 'i' && d.toLower == 'd' then
          match pmidAfterLabel rest with
          | some r => some r
          | none => pmidSearch cs
        else pmidSearch cs
      | _ => pmidSearch cs
    else pmidSearch cs

/-- Is the `\b` boundary satisfied between `prev` (the character before the match,
`none` at the start of the string) and a word character? -/
def boundaryBefore (prev : Option Char) : Bool :=
  match prev with
  | none => true
  | some p => !(isWordChar p)

/-- Is the `\b` boundary satisfied after the match, `rest` being the remainder? -/
def boundaryAfter (rest : List Char) : Bool :=
  match rest with
  | [] => true
  | r :: _ => !(isWordChar r)

/-- `re.search(r'\b(19|20)\d{2}\b', ref_text)`: the first word-bounded four-digit
number starting `19` or `20`; returns its four digit characters. -/
def yearSearchAux (prev : Option Char) : List Char → Option (List Char)
  | [] => none
  | c1 :: rest =>
    match rest with
    | c2 :: c3 :: c4 :: rest2 =>
      if boundaryBefore prev && ((c1 == '1' && c2 == '9') || (c1 == '2' && c2 == '0'))
          && c3.isDigit && c4.isDigit && boundaryAfter rest2 then
        some [c1, c2, c3, c4]
      else yearSearchAux (some c1) rest
    | _ => yearSearchAux (some c1) rest

/-- Year search entry point. -/
def yearSearch (l : List Char) : Option (List Char) :=
  yearSearchAux none l

/-- Does `cs` continue a word-bounded `and` match whose `a` (preceded by `prev`)
was just seen? -/
def andAhead (prev : Option Char) (cs : List Char) : Bool :=
  match cs with
  | 'n' :: 'd' :: rest => boundaryBefore prev && boundaryAfter rest
  | _ => false

/-- Scanner for `re.split(r',|\band\b', author_part)`: split on commas and on
word-bounded `and`; `skip` consumes the `n`, `d` of a just-matched `and`. -/
def splitAndsGo (skip : Nat) (prev : Option Char) (acc : List Char)
    (out : List (List Char)) : List Char → List (List Char)
  | [] => (acc.reverse :: out).reverse
  | c :: cs =>
    match skip with
    | n + 1 => splitAndsGo n (some c) acc out cs
    | 0 =>
      if c == ',' then splitAndsGo 0 (some c) [] (acc.reverse :: out) cs
      else if c == 'a' && andAhead prev cs then
        splitAndsGo 2 (some c) [] (acc.reverse :: out) cs
      else splitAndsGo 0 (some c) (c :: acc) out cs

/-- `re.split(r',|\band\b', author_part)`. -/
def splitAnds (l : List Char) : List (List Char) :=
  splitAndsGo 0 none [] [] l

/-! ### Data model -/

/-- Image record built by the line loop (`image_data` dict in `_parse_markdown`). -/
structure MdImage where
  alt_text : String
  path : String
  caption : String
  line_number : Nat
deriving DecidableEq, Repr

/-- Table record built by `_parse_table`.  The under-two-lines shell carries no
`num_columns`/`num_rows` keys, modelled by `none`. -/
structure MdTable where
  headers : List String
  rows : List (List String)
  num_columns : Option Nat
  num_rows : Option Nat
  raw_content : String
deriving DecidableEq, Repr

/-- Section record built by the line loop (`current_section` dict).  The source's
`subsections` list is always empty and is omitted here. -/
structure MdSection where
  level : Nat
  title : String
  content : List String
  tables : List MdTable
  images : List MdImage
deriving DecidableEq, Repr

/-- Pydantic `Reference` model.  Fields the module never populates
(`journal`, `volume`, `issue`, `pages`, `isbn`, `url`, `publisher`) stay `none`. -/
structure Reference where
  title : Option String
  authors : List String
  journal : Option String
  year : Option Int
  volume : Option String
  issue : Option String
  pages : Option String
  doi : Option String
  pmid : Option String
  isbn : Option String
  url : Option String
  publisher : Option String
  raw_text : String
  reference_type : String
deriving DecidableEq, Repr

/-- The fields of `DocumentMetadata` that `_extract_metadata` computes
(`processed_date` is a wall-clock timestamp and is outside the model). -/
structure DocMeta where
  title : Option String
  authors : List String
  abstract : Option String
  keywords : List String
  page_count : Nat
  language : String
  document_type : String
deriving DecidableEq, Repr

/-- Loop state of `_parse_markdown`, plus the accumulated parse-tree lists. -/
structure ParseState where
  sections : List MdSection
  tables : List MdTable
  images : List MdImage
  references : List Reference
  current : Option MdSection
  in_table : Bool
  table_content : List String
  in_references : Bool
deriving DecidableEq, Repr

/-- Initial state of the loop. -/
def ParseState.init : ParseState :=
  { sections := [], tables := [], images := [], references := [],
    current := none, in_table := false, table_content := [], in_references := false }

/-- Result of `_parse_markdown` (the `parsed` dict; `metadata` is derived separately). -/
structure ParseTree where
  sections : List MdSection
  tables : List MdTable
  images : List MdImage
  references : List Reference
  raw_content : String
deriving DecidableEq, Repr

/-! ### Reference parsing (`_parse_reference` and the pydantic validators) -/

/-- `Reference.validate_year`: a present year outside `[1800, current_year+1]`
fails validation. -/
def validateYear (y : Option Int) (currentYear : Int) : Bool :=
  match y with
  | none => true
  | some v => !(v < 1800 || v > currentYear + 1)

/-- Pydantic construction of `Reference`: the year validator may fail
(`validate_doi` only warns and never fails). -/
def mkReference (title : Option String) (authors : List String) (year : Option Int)
    (doi pmid : Option String) (raw_text : String) (reference_type : String)
    (currentYear : Int) : Except String Reference :=
  if validateYear year currentYear then
    .ok { title := title, authors := authors, journal := none, year := year,
          volume := none, issue := none, pages := none, doi := doi, pmid := pmid,
          isbn := none, url := none, publisher := none,
          raw_text := raw_text, reference_type := reference_type }
  else
    .error ("Year must be between 1800 and " ++ toString (currentYear + 1))

/-- Author-candidate filter of `_parse_reference`: strip, strip trailing periods,
keep when non-empty, longer than one character and not all digits. -/
def authorsOf (author_part : List Char) : List String :=
  let parts := splitAnds author_part
  let cleaned := parts.map (fun p => dropTrailWhile (fun c => c == '.') (pyStripChars p))
  (cleaned.filter (fun a => !a.isEmpty && a.length > 1 && !(a.all Char.isDigit))).map
    String.mk

/-- `MarkdownToJSONProcessor._parse_reference`.  The matched year text (always four
digits `19xx`/`20xx`, so equal to Python's `str(year)`) doubles as the split needle. -/
def parseReference (currentYear : Int) (ref_text : String) : Except String Reference :=
  let cs := ref_text.data
  let title := titleSearch cs
  let doi := doiSearch cs
  let pmid := pmidSearch cs
  let yearDs := yearSearch cs
  let year : Option Int := yearDs.map digitsToInt
  let author_part : List Char :=
    match title with
    | some t => splitNeedle t cs
    | none =>
      match yearDs with
      | some ds => splitNeedle ds cs
      | none => cs.take 100
  let authors := (authorsOf author_part).take 5
  let low := cs.map Char.toLower
  let ref_type :=
    if containsSub "journal".data low || doi.isSome then "journal_article"
    else if containsSub "book".data low || containsSub "isbn".data low then "book"
    else if containsSub "http".data low || containsSub "www".data low then "website"
    else if containsSub "conference".data low || containsSub "proceedings".data low then
      "conference_paper"
    else "unknown"
  mkReference (title.map String.mk) authors year (doi.map String.mk) (pmid.map String.mk)
    ref_text ref_type currentYear

/-! ### Table assembly (`_parse_table`) -/

/-- Cell extraction `[cell.strip() for cell in line.split('|') if cell.strip()]`. -/
def cellsOf (line : String) : List String :=
  (((splitOnChar '|' line.data).map pyStripChars).filter
    (fun c => !c.isEmpty)).map String.mk

/-- Row loop of `_parse_table` over `table_lines[2:]`. -/
def rowsOf (rest : List String) : List (List String) :=
  rest.foldl
    (fun acc line =>
      if hasPipe line then
        let row := cellsOf line
        if !row.isEmpty then acc ++ [row] else acc
      else acc) []

/-- `MarkdownToJSONProcessor._parse_table`. -/
def parseTable (table_lines : List String) : MdTable :=
  match table_lines with
  | [] => { headers := [], rows := [], num_columns := none, num_rows := none,
            raw_content := joinNl table_lines }
  | [l] => { headers := [], rows := [], num_columns := none, num_rows := none,
             raw_content := joinNl [l] }
  | header_line :: _sep :: rest =>
    let headers := cellsOf header_line
    let rows := rowsOf rest
    { headers := headers, rows := rows,
      num_columns := some headers.length, num_rows := some rows.length,
      raw_content := joinNl table_lines }

/-! ### The line loop (`_parse_markdown`) -/

/-- The three words whose presence in a (lowercased) heading title marks a
references section. -/
def refSectionWords : List String :=
  ["reference", "bibliography", "citation"]

/-- Does a heading title open a references section? -/
def isRefTitle (title : String) : Bool :=
  refSectionWords.any (fun w => containsSub w.data (title.data.map Char.toLower))

/-- `re.sub(r'^[-\d.]\s*', '', line)`: remove one leading character of the class
`[-\d.]` together with the following whitespace (no match leaves the line unchanged). -/
def refMarkerStrip (line : String) : String :=
  match line.data with
  | c :: cs =>
    if c == '-' || c.isDigit || c == '.' then String.mk (cs.dropWhile isPySpace)
    else line
  | [] => line

/-- `re.match(r'^\d+\.', line)`: a leading digit run followed by a period. -/
def digitsDotStart (line : String) : Bool :=
  !(line.data.takeWhile Char.isDigit).isEmpty &&
    (match line.data.dropWhile Char.isDigit with
     | '.' :: _ => true
     | _ => false)

/-- Is a stripped line a reference candidate (inside a references section)? -/
def isRefCandidate (line : String) : Bool :=
  strStarts "- " line || strStarts "1. " line || digitsDotStart line

/-- Append a table to the open section, when one exists. -/
def addTbl (cur : Option MdSection) (t : MdTable) : Option MdSection :=
  cur.map (fun c => { c with tables := c.tables ++ [t] })

/-- Append an image to the open section, when one exists. -/
def addImg (cur : Option MdSection) (im : MdImage) : Option MdSection :=
  cur.map (fun c => { c with images := c.images ++ [im] })

/-- Append a content line to the open section, when one exists. -/
def addContent (cur : Option MdSection) (line : String) : Option MdSection :=
  cur.map (fun c => { c with content := c.content ++ [line] })

/-- Heading handling of the line loop: close the open section, compute level and
title, set the references flag, open a fresh section. -/
def headingStep (line : String) (st : ParseState) : ParseState :=
  let level := (line.data.takeWhile (fun c => c == '#')).length
  let title := String.mk (pyStripChars (line.data.dropWhile (fun c => c == '#')))
  { st with sections := st.sections ++ st.current.toList,
            current := some { level := level, title := title, content := [],
                              tables := [], images := [] },
            in_references := isRefTitle title }

/-- Table flush of the line loop (`elif in_table:` branch). -/
def flushTable (st : ParseState) : ParseState :=
  let td := parseTable st.table_content
  { st with tables := st.tables ++ [td], current := addTbl st.current td,
            in_table := false, table_content := [] }

/-- One iteration of the `_parse_markdown` loop, acting on the stripped line.
`lookSep` is the raw-next-line separator test
`i + 1 < len(lines) and '|' in lines[i+1] and '-' in lines[i+1]`. -/
def stepCore (currentYear : Int) (i : Nat) (line : String) (lookSep : Bool)
    (st : ParseState) : Except String ParseState :=
  if line == "" then .ok st
  else if strStarts "#" line then .ok (headingStep line st)
  else
    match imgSearch line.data with
    | some (alt, path) =>
      let img : MdImage := { alt_text := String.mk alt, path := String.mk path,
                             caption := String.mk alt, line_number := i + 1 }
      .ok { st with images := st.images ++ [img], current := addImg st.current img }
    | none =>
      if hasPipe line && lookSep then
        .ok { st with in_table := true, table_content := [line] }
      else if st.in_table && hasPipe line then
        .ok { st with table_content := st.table_content ++ [line] }
      else
        let st1 := if st.in_table then flushTable st else st
        if st1.in_references && isRefCandidate line then
          match parseReference currentYear (refMarkerStrip line) with
          | .ok r => .ok { st1 with references := st1.references ++ [r] }
          | .error e => .error e
        else
          .ok { st1 with current := addContent st1.current line }

/-- One iteration on the raw line: strip it, compute the raw lookahead test. -/
def stepLine (currentYear : Int) (i : Nat) (raw : String) (nextRaw : Option String)
    (st : ParseState) : Except String ParseState :=
  stepCore currentYear i (pyStripS raw)
    (match nextRaw with
     | some nl => hasPipe nl && hasDash nl
     | none => false) st

/-- The `for i, line in enumerate(lines)` loop. -/
def parseLoop (currentYear : Int) : Nat → List String → ParseState →
    Except String ParseState
  | _, [], st => .ok st
  | i, l :: rest, st =>
    match stepLine currentYear i l rest.head? st with
    | .ok st' => parseLoop currentYear (i + 1) rest st'
    | .error e => .error e

/-- Sections of the finished parse: the closed ones plus the still-open one. -/
def finalSecs (st : ParseState) : List MdSection :=
  st.sections ++ st.current.toList

/-- `_parse_markdown` on a pre-split line list, recording `raw` as `raw_content`. -/
def parseMarkdownWith (currentYear : Int) (raw : String) (lines : List String) :
    Except String ParseTree :=
  (parseLoop currentYear 0 lines ParseState.init).map fun st =>
    { sections := finalSecs st, tables := st.tables, images := st.images,
      references := st.references, raw_content := raw }

/-- `_parse_markdown` on a line list, with `raw_content` as the rejoined text. -/
def parseMarkdownLines (currentYear : Int) (lines : List String) :
    Except String ParseTree :=
  parseMarkdownWith currentYear (joinNl lines) lines

/-- `MarkdownToJSONProcessor._parse_markdown` on the full content string. -/
def parseMarkdown (currentYear : Int) (content : String) : Except String ParseTree :=
  parseMarkdownWith currentYear content (splitLines content)

/-! ### Metadata derivation (`_extract_metadata`) -/

/-- `MarkdownToJSONProcessor._extract_metadata` (sans the wall-clock timestamp). -/
def extractMetadata (t : ParseTree) : DocMeta :=
  let title : Option String :=
    match t.sections with
    | s :: _ => if s.level == 1 then some s.title else none
    | [] => none
  let page_count := max 1 (t.raw_content.data.length / 3000)
  let abstract :=
    ((t.sections.take 3).find?
      (fun s => containsSub "abstract".data (s.title.data.map Char.toLower))).map
      (fun s => String.mk (joinWith [' '] (s.content.map String.data)))
  { title := title, authors := [], abstract := abstract, keywords := [],
    page_count := page_count, language := "en", document_type := "academic_paper" }

/-! ### Spec-side definitions used for refinement comparisons -/

/-- Spec-side DOI pattern at one position, following the spec's words: the loose
pattern `10.<digits>/<non-space>` (the two-character string `10`, a dot, digits,
a slash, non-space characters). -/
def specLooseDoiAt (s : List Char) : Option (List Char) :=
  match s with
  | '1' :: '0' :: '.' :: more =>
    let ds := more.takeWhile Char.isDigit
    let rest := more.dropWhile Char.isDigit
    if ds.isEmpty then none
    else
      match rest with
      | '/' :: tl =>
        let ns := tl.takeWhile (fun c => !(isPySpace c))
        if ns.isEmpty then none
        else some ('1' :: '0' :: '.' :: (ds ++ '/' :: ns))
      | _ => none
  | _ => none

/-- Spec-side DOI extraction, following the spec's words: the first match of the
loose pattern found anywhere in the string, with or without a `doi` label. -/
def specLooseDoiFirst : List Char → Option (List Char)
  | [] => none
  | c :: cs =>
    match specLooseDoiAt (c :: cs) with
    | some r => some r
    | none => specLooseDoiFirst cs

/-- Does an `Except` hold a success value? -/
def isOkE {ε α : Type} : Except ε α → Bool
  | .ok _ => true
  | .error _ => false

/-! ### Claim theorems -/

/-- Claim C1 (code_bug evaluation): parsing the spec's five-line acceptance input
yields the two expected sections (with the references flag active for the second)
and one Reference with the expected title, year and authors, but the code's DOI
regex (`[10]` is a character class) extracts no DOI from `doi:10.1000/xyz123`,
so `doi` is `none` and `reference_type` is `"unknown"` instead of the claimed
`"10.1000/xyz123"` / `"journal_article"`. -/
theorem c1_acceptance_eval :
    parseMarkdown 2026
        "# Title\nIntro text.\n\n## References\n- Smith, J. \"A Study\" 2020. doi:10.1000/xyz123" =
      .ok { sections := [{ level := 1, title := "Title", content := ["Intro text."],
                           tables := [], images := [] },
                         { level := 2, title := "References", content := [],
                           tables := [], images := [] }],
            tables := [], images := [],
            references := [{ title := some "A Study", authors := ["Smith", "J. \""],
                             journal := none, year := some 2020, volume := none,
                             issue := none, pages := none, doi := none, pmid := none,
                             isbn := none, url := none, publisher := none,
                             raw_text := "Smith, J. \"A Study\" 2020. doi:10.1000/xyz123",
                             reference_type := "unknown" }],
            raw_content := "# Title\nIntro text.\n\n## References\n- Smith, J. \"A Study\" 2020. doi:10.1000/xyz123" }
    ∧ (parseLoop 2026 0
        (splitLines "# Title\nIntro text.\n\n## References\n- Smith, J. \"A Study\" 2020. doi:10.1000/xyz123")
        ParseState.init).map ParseState.in_references = .ok true := by
  exact ⟨rfl, rfl⟩

/-- Claim C2 (code_bug evaluation): the code's DOI extraction finds nothing in
`doi:10.1000/xyz123` (also inside the full acceptance reference string), while the
spec's loose pattern finds `10.1000/xyz123`; conversely the code accepts
`doi: 0.123/abc`, which the spec's pattern rejects. -/
theorem c2_doi_extraction_eval :
    doiSearch "Smith, J. \"A Study\" 2020. doi:10.1000/xyz123".data = none
    ∧ doiSearch "doi:10.1000/xyz123".data = none
    ∧ (specLooseDoiFirst "doi:10.1000/xyz123".data).map String.mk = some "10.1000/xyz123"
    ∧ (doiSearch "doi: 0.123/abc".data).map String.mk = some "0.123/abc"
    ∧ specLooseDoiFirst "doi: 0.123/abc".data = none
    ∧ doiSearch "see 10.123/abc".data = none
    ∧ (specLooseDoiFirst "see 10.123/abc".data).map String.mk = some "10.123/abc" := by
  exact ⟨rfl, rfl, rfl, rfl, rfl, rfl, rfl⟩

/-- Claim C3 (counterexample): with a table already open (`in_table` true, buffer
`["|a|b|"]`), a line containing `|` whose successor contains both `|` and `-`
restarts the buffer to `["|-|-|"]` — it is not appended as a continuation, refuting
the claim that the start transition fires only when no table is open.  On the full
input the resulting document holds one table with headers `["-","-"]` instead of the
single `["a","b"]`-headed table the claimed behaviour would produce. -/
theorem c3_counterexample :
    stepCore 2026 1 "|-|-|" true
        { ParseState.init with in_table := true, table_content := ["|a|b|"] } =
      .ok { ParseState.init with in_table := true, table_content := ["|-|-|"] }
    ∧ (["|-|-|"] : List String) ≠ ["|a|b|", "|-|-|"]
    ∧ parseMarkdownLines 2026 ["|a|b|", "|-|-|", "|x-y|z|", "end"] =
      .ok { sections := [],
            tables := [{ headers := ["-", "-"], rows := [], num_columns := some 2,
                         num_rows := some 0, raw_content := "|-|-|\n|x-y|z|" }],
            images := [], references := [],
            raw_content := "|a|b|\n|-|-|\n|x-y|z|\nend" } := by
  refine ⟨rfl, by decide, rfl⟩

/-- Claim C4 (counterexample): a heading interrupting an open table does not cause
the buffered table to vanish — the buffer survives the heading and is flushed at the
next non-`|` line into the flat table list and into the section opened by that
heading, so the table is emitted, refuting "abandoned and never emitted". -/
theorem c4_counterexample :
    parseMarkdownLines 2026 ["|a|b|", "|-|-|", "# H", "x"] =
      .ok { sections := [{ level := 1, title := "H", content := ["x"],
                           tables := [{ headers := ["a", "b"], rows := [],
                                        num_columns := some 2, num_rows := some 0,
                                        raw_content := "|a|b|\n|-|-|" }],
                           images := [] }],
            tables := [{ headers := ["a", "b"], rows := [], num_columns := some 2,
                         num_rows := some 0, raw_content := "|a|b|\n|-|-|" }],
            images := [], references := [],
            raw_content := "|a|b|\n|-|-|\n# H\nx" }
    ∧ ([{ headers := ["a", "b"], rows := [], num_columns := some 2, num_rows := some 0,
          raw_content := "|a|b|\n|-|-|" }] : List MdTable) ≠ [] := by
  refine ⟨rfl, by decide⟩

/-- Claim C5 (counterexample): for the numbered reference candidate `1. Smith 2020`
inside a references section, only the single leading character `1` (plus following
whitespace, of which there is none before `.`) is stripped, so the Reference's
`raw_text` is `". Smith 2020"`, not the claimed `"Smith 2020"`. -/
theorem c5_counterexample :
    parseMarkdownLines 2026 ["# References", "1. Smith 2020"] =
      .ok { sections := [{ level := 1, title := "References", content := [],
                           tables := [], images := [] }],
            tables := [], images := [],
            references := [{ title := none, authors := [". Smith"], journal := none,
                             year := some 2020, volume := none, issue := none,
                             pages := none, doi := none, pmid := none, isbn := none,
                             url := none, publisher := none,
                             raw_text := ". Smith 2020", reference_type := "unknown" }],
            raw_content := "# References\n1. Smith 2020" }
    ∧ (". Smith 2020" : String) ≠ "Smith 2020" := by
  refine ⟨rfl, by decide⟩

/-- Claim C6: constructing a `Reference` fails exactly when a year is present and
lies outside `[1800, current_year+1]`; a successful construction keeps the year
unchanged (no clamping); year 1700 always fails, and year 2024 succeeds whenever
the current year is at least 2024. -/
theorem c6_year_validation (t : Option String) (a : List String) (y : Option Int)
    (d p : Option String) (raw rt : String) (cy : Int) :
    (isOkE (mkReference t a y d p raw rt cy) = true ↔
        ∀ v, y = some v → 1800 ≤ v ∧ v ≤ cy + 1)
    ∧ (∀ r, mkReference t a y d p raw rt cy = .ok r → r.year = y)
    ∧ isOkE (mkReference t a (some 1700) d p raw rt cy) = false
    ∧ (2024 ≤ cy → isOkE (mkReference t a (some 2024) d p raw rt cy) = true) := by
  refine ⟨?_, ?_, ?_, ?_⟩
  · cases y with
    | none => simp [mkReference, validateYear, isOkE]
    | some v =>
      simp only [mkReference, validateYear]
      by_cases h : v < 1800 ∨ v > cy + 1
      · have : (decide (v < 1800) || decide (cy + 1 < v)) = true := by
          rcases h with h | h <;> simp [h]
        simp only [this]
        simp [isOkE]
        intro hc
        omega
      · have : (decide (v < 1800) || decide (cy + 1 < v)) = false := by
          push_neg at h
          simp [h.1.not_lt, h.2.not_lt]
        simp only [this]
        simp [isOkE]
        omega
  · intro r hr
    simp only [mkReference] at hr
    by_cases h : validateYear y cy = true
    · simp [h] at hr
      rw [← hr]
    · simp [h] at hr
  · simp [mkReference, validateYear, isOkE]
  · intro h
    have : validateYear (some 2024) cy = true := by
      simp [validateYear]
      omega
    simp [mkReference, this, isOkE]

/-- Claim C6 witness: at current year 2026, year 2024 passes construction and year
1700 fails it. -/
theorem c6_year_validation_witness :
    isOkE (mkReference none [] (some 2024) none none "x" "unknown" 2026) = true
    ∧ isOkE (mkReference none [] (some 1700) none none "x" "unknown" 2026) = false :=
  ⟨(c6_year_validation none [] none none none "x" "unknown" 2026).2.2.2 (by norm_num),
   (c6_year_validation none [] none none none "x" "unknown" 2026).2.2.1⟩

/-- Helper: a successfully parsed reference records the parser's input unchanged
as `raw_text`. -/
theorem parseReference_raw_text (cy : Int) (s : String) (r : Reference)
    (h : parseReference cy s = .ok r) : r.raw_text = s := by
  simp only [parseReference, mkReference] at h
  split at h
  · rw [Except.ok.injEq] at h
    rw [← h]
  · exact absurd h (by simp)

/-- Claim C3 (amended): the table-start test has no `in_table` guard — while a table
is open, a non-heading, non-image, non-empty line containing `|` restarts the buffer
to just that line whenever the raw next line contains both `|` and `-`, and is
appended as a continuation otherwise. -/
theorem c3_amended_table_transitions (cy : Int) (i : Nat) (line : String)
    (lookSep : Bool) (st : ParseState)
    (hin : st.in_table = true) (hne : line ≠ "")
    (hhd : strStarts "#" line = false) (himg : imgSearch line.data = none)
    (hp : hasPipe line = true) :
    stepCore cy i line lookSep st =
      .ok (if lookSep then { st with in_table := true, table_content := [line] }
           else { st with table_content := st.table_content ++ [line] }) := by
  have h0 : (line == "") = false := by simp [hne]
  unfold stepCore
  rw [h0, hhd, himg, hp, hin]
  cases lookSep <;> simp

/-- Claim C3 (amended) witness: with the buffer `["|a|"]` open, the line `|x|`
restarts the buffer when the lookahead holds and is appended when it does not. -/
theorem c3_amended_table_transitions_witness :
    stepCore 2026 0 "|x|" true
        { ParseState.init with in_table := true, table_content := ["|a|"] } =
      .ok { ParseState.init with in_table := true, table_content := ["|x|"] }
    ∧ stepCore 2026 0 "|x|" false
        { ParseState.init with in_table := true, table_content := ["|a|"] } =
      .ok { ParseState.init with in_table := true, table_content := ["|a|", "|x|"] } := by
  constructor
  · have h := c3_amended_table_transitions 2026 0 "|x|" true
      { ParseState.init with in_table := true, table_content := ["|a|"] }
      rfl (by decide) rfl rfl rfl
    simpa using h
  · have h := c3_amended_table_transitions 2026 0 "|x|" false
      { ParseState.init with in_table := true, table_content := ["|a|"] }
      rfl (by decide) rfl rfl rfl
    simpa using h

/-- Claim C4 (amended): a heading line leaves `in_table`, the table buffer and the
flat tables list untouched (no flush, no loss at the heading itself), and the
end-of-input assembly adds no table — the finished tree's tables are exactly the
loop-final state's tables, so a table still open at end of input is never flushed. -/
theorem c4_amended_heading_and_eof :
    (∀ (cy : Int) (i : Nat) (line : String) (lookSep : Bool) (st : ParseState),
      strStarts "#" line = true →
      stepCore cy i line lookSep st = .ok (headingStep line st)
      ∧ (headingStep line st).in_table = st.in_table
      ∧ (headingStep line st).table_content = st.table_content
      ∧ (headingStep line st).tables = st.tables)
    ∧ ∀ (cy : Int) (raw : String) (lines : List String) (st : ParseState),
      parseLoop cy 0 lines ParseState.init = .ok st →
      parseMarkdownWith cy raw lines =
        .ok { sections := finalSecs st, tables := st.tables, images := st.images,
              references := st.references, raw_content := raw } := by
  constructor
  · intro cy i line lookSep st hhd
    have h0 : (line == "") = false := by
      cases hl : line == "" with
      | false => rfl
      | true =>
        have : line = "" := by simpa using hl
        subst this
        exact absurd hhd (by decide)
    refine ⟨?_, rfl, rfl, rfl⟩
    unfold stepCore
    rw [h0, hhd]
    rfl
  · intro cy raw lines st h
    unfold parseMarkdownWith
    rw [h]
    rfl

/-- Claim C4 (amended) witness: a heading with an open buffer keeps the table state,
and a two-line input ending inside an open table yields a tree with no tables. -/
theorem c4_amended_heading_and_eof_witness :
    stepCore 2026 2 "# H" false
        { ParseState.init with in_table := true, table_content := ["|a|b|", "|-|-|"] } =
      .ok (headingStep "# H"
        { ParseState.init with in_table := true, table_content := ["|a|b|", "|-|-|"] })
    ∧ parseMarkdownWith 2026 "|a|b|\n|-|-|" ["|a|b|", "|-|-|"] =
      .ok { sections := [], tables := [], images := [], references := [],
            raw_content := "|a|b|\n|-|-|" } := by
  constructor
  · exact (c4_amended_heading_and_eof.1 2026 2 "# H" false
      { ParseState.init with in_table := true, table_content := ["|a|b|", "|-|-|"] }
      rfl).1
  · exact c4_amended_heading_and_eof.2 2026 "|a|b|\n|-|-|" ["|a|b|", "|-|-|"]
      { ParseState.init with in_table := true, table_content := ["|a|b|", "|-|-|"] } rfl

/-- Claim C5 (amended): a reference-candidate line (no table open) is handed to the
reference parser after removing exactly one leading character of the class
`[-\d.]` plus following whitespace, and the parsed Reference's `raw_text` is that
single-character-stripped remainder. -/
theorem c5_amended_marker_strip (cy : Int) (i : Nat) (line : String) (lookSep : Bool)
    (st : ParseState) (hin : st.in_table = false) (href : st.in_references = true)
    (hhd : strStarts "#" line = false) (himg : imgSearch line.data = none)
    (hstart : (hasPipe line && lookSep) = false) (hcand : isRefCandidate line = true) :
    stepCore cy i line lookSep st =
      (parseReference cy (refMarkerStrip line)).map
        (fun r => { st with references := st.references ++ [r] })
    ∧ ∀ r, parseReference cy (refMarkerStrip line) = .ok r →
        r.raw_text = refMarkerStrip line := by
  have h0 : (line == "") = false := by
    cases hl : line == "" with
    | false => rfl
    | true =>
      have : line = "" := by simpa using hl
      subst this
      exact absurd hcand (by decide)
  constructor
  · unfold stepCore
    simp only [h0, hhd, himg, hstart, hin, href, hcand, Bool.false_and,
      Bool.true_and, Bool.and_true, if_false, if_true]
    cases hpr : parseReference cy (refMarkerStrip line) <;>
      simp [hpr, Except.map, href, hin]
  · intro r h
    exact parseReference_raw_text cy (refMarkerStrip line) r h

/-- Claim C5 (amended) witness: for the candidate `- Smith 2021` the step hands
`Smith 2021` to the reference parser, and the resulting `raw_text` is `Smith 2021`. -/
theorem c5_amended_marker_strip_witness :
    stepCore 2026 1 "- Smith 2021" false
        { ParseState.init with in_references := true } =
      (parseReference 2026 (refMarkerStrip "- Smith 2021")).map
        (fun r => { { ParseState.init with in_references := true } with
                    references := ({ ParseState.init with in_references := true } :
                      ParseState).references ++ [r] })
    ∧ ({ title := none, authors := ["Smith"], journal := none, year := some 2021,
         volume := none, issue := none, pages := none, doi := none, pmid := none,
         isbn := none, url := none, publisher := none, raw_text := "Smith 2021",
         reference_type := "unknown" } : Reference).raw_text =
      refMarkerStrip "- Smith 2021" := by
  have h := c5_amended_marker_strip 2026 1 "- Smith 2021" false
    { ParseState.init with in_references := true }
    rfl rfl rfl rfl rfl (by decide)
  exact ⟨h.1, h.2 _ rfl⟩

/-- Spec-side headers of a buffered table run, following the spec's words:
the cells of the first line. -/
def specHeads : List String → List String
  | [] => []
  | h :: _ => cellsOf h

/-- Spec-side rows of a buffered table run, following the spec's words: every line
from index 2 on, split on `|`, trimmed, empties dropped, kept when a non-empty cell
remains (with no `'|' in line` guard). -/
def specRowsOf (lines : List String) : List (List String) :=
  (lines.drop 2).filterMap
    (fun l => let r := cellsOf l; if r.isEmpty then none else some r)

/-- Helper: over lines that all contain `|`, the assembler's row fold agrees with
the spec's guard-free description. -/
theorem rowsOf_go (rest : List String) (acc : List (List String))
    (hp : ∀ l ∈ rest, hasPipe l = true) :
    rest.foldl
      (fun acc line =>
        if hasPipe line then
          let row := cellsOf line
          if !row.isEmpty then acc ++ [row] else acc
        else acc) acc =
      acc ++ rest.filterMap
        (fun l => let r := cellsOf l; if r.isEmpty then none else some r) := by
  induction rest generalizing acc with
  | nil => simp
  | cons l rest ih =>
    have hl : hasPipe l = true := hp l (List.mem_cons_self l rest)
    have hrest : ∀ x ∈ rest, hasPipe x = true :=
      fun x hx => hp x (List.mem_cons_of_mem l hx)
    simp only [List.foldl_cons, List.filterMap_cons, hl, if_true]
    by_cases he : (cellsOf l).isEmpty
    · simp only [he, Bool.not_true, if_false, if_true]
      exact ih acc hrest
    · simp only [he, Bool.not_false, if_true, if_false]
      rw [ih (acc ++ [cellsOf l]) hrest, List.append_assoc]
      rfl

/-- Claim C7: for a buffered run of at least two lines (all buffered lines contain
`|`, as both buffering rules require), the assembled table has the spec-described
headers and rows, with `num_columns`/`num_rows` equal to their lengths; a run of
fewer than two lines yields the empty shell with only `raw_content` set. -/
theorem c7_table_assembler (lines : List String) :
    (2 ≤ lines.length → (∀ l ∈ lines, hasPipe l = true) →
      parseTable lines =
        { headers := specHeads lines, rows := specRowsOf lines,
          num_columns := some (specHeads lines).length,
          num_rows := some (specRowsOf lines).length,
          raw_content := joinNl lines })
    ∧ (lines.length < 2 →
      parseTable lines =
        { headers := [], rows := [], num_columns := none, num_rows := none,
          raw_content := joinNl lines }) := by
  match lines with
  | [] =>
    refine ⟨fun h _ => absurd h (by simp), fun _ => rfl⟩
  | [l] =>
    refine ⟨fun h _ => absurd h (by simp), fun _ => rfl⟩
  | h :: s :: rest =>
    constructor
    · intro _ hp
      have hrest : ∀ x ∈ rest, hasPipe x = true :=
        fun x hx => hp x (by simp [hx])
      show MdTable.mk (cellsOf h) (rowsOf rest) (some (cellsOf h).length)
          (some (rowsOf rest).length) (joinNl (h :: s :: rest)) = _
      have : rowsOf rest = specRowsOf (h :: s :: rest) := by
        unfold rowsOf specRowsOf
        simpa using rowsOf_go rest [] hrest
      rw [this]
      rfl
    · intro hlt
      have : rest.length + 1 + 1 < 2 := by simpa using hlt
      omega

/-- Claim C7 witness: the three-line table `| A | B |` / `|---|---|` / `| 1 | 2 |`
assembles to the spec-described headers, rows and counts. -/
theorem c7_table_assembler_witness :
    parseTable ["| A | B |", "|---|---|", "| 1 | 2 |"] =
      { headers := specHeads ["| A | B |", "|---|---|", "| 1 | 2 |"],
        rows := specRowsOf ["| A | B |", "|---|---|", "| 1 | 2 |"],
        num_columns := some (specHeads ["| A | B |", "|---|---|", "| 1 | 2 |"]).length,
        num_rows := some (specRowsOf ["| A | B |", "|---|---|", "| 1 | 2 |"]).length,
        raw_content := joinNl ["| A | B |", "|---|---|", "| 1 | 2 |"] } :=
  (c7_table_assembler ["| A | B |", "|---|---|", "| 1 | 2 |"]).1 (by decide) (by decide)

/-- Helper: exhaustive case description of one loop step.  Exactly one of the eight
branch descriptions applies, each recording its guards and the produced state. -/
theorem stepCore_shape (cy : Int) (i : Nat) (line : String) (lookSep : Bool)
    (st : ParseState) :
    ((line == "") = true ∧ stepCore cy i line lookSep st = .ok st)
    ∨ ((line == "") = false ∧ strStarts "#" line = true ∧
        stepCore cy i line lookSep st = .ok (headingStep line st))
    ∨ ((line == "") = false ∧ strStarts "#" line = false ∧
        (∃ alt path, imgSearch line.data = some (alt, path) ∧
          stepCore cy i line lookSep st =
            .ok { st with
                  images := st.images ++
                    [{ alt_text := String.mk alt, path := String.mk path,
                       caption := String.mk alt, line_number := i + 1 }],
                  current := addImg st.current
                    { alt_text := String.mk alt, path := String.mk path,
                      caption := String.mk alt, line_number := i + 1 } }))
    ∨ ((line == "") = false ∧ strStarts "#" line = false ∧ imgSearch line.data = none ∧
        (hasPipe line && lookSep) = true ∧
        stepCore cy i line lookSep st =
          .ok { st with in_table := true, table_content := [line] })
    ∨ ((line == "") = false ∧ strStarts "#" line = false ∧ imgSearch line.data = none ∧
        (hasPipe line && lookSep) = false ∧ (st.in_table && hasPipe line) = true ∧
        stepCore cy i line lookSep st =
          .ok { st with table_content := st.table_content ++ [line] })
    ∨ ((line == "") = false ∧ strStarts "#" line = false ∧ imgSearch line.data = none ∧
        (hasPipe line && lookSep) = false ∧ (st.in_table && hasPipe line) = false ∧
        ((if st.in_table then flushTable st else st).in_references &&
          isRefCandidate line) = true ∧
        (∃ r, parseReference cy (refMarkerStrip line) = .ok r ∧
          stepCore cy i line lookSep st =
            .ok { (if st.in_table then flushTable st else st) with
                  references :=
                    (if st.in_table then flushTable st else st).references ++ [r] }))
    ∨ ((line == "") = false ∧ strStarts "#" line = false ∧ imgSearch line.data = none ∧
        (hasPipe line && lookSep) = false ∧ (st.in_table && hasPipe line) = false ∧
        ((if st.in_table then flushTable st else st).in_references &&
          isRefCandidate line) = true ∧
        (∃ e, parseReference cy (refMarkerStrip line) = .error e ∧
          stepCore cy i line lookSep st = .error e))
    ∨ ((line == "") = false ∧ strStarts "#" line = false ∧ imgSearch line.data = none ∧
        (hasPipe line && lookSep) = false ∧ (st.in_table && hasPipe line) = false ∧
        ((if st.in_table then flushTable st else st).in_references &&
          isRefCandidate line) = false ∧
        stepCore cy i line lookSep st =
          .ok { (if st.in_table then flushTable st else st) with
                current :=
                  addContent (if st.in_table then flushTable st else st).current line }) := by
  by_cases h1 : (line == "") = true
  · exact Or.inl ⟨h1, by unfold stepCore; rw [if_pos h1]⟩
  · have h1' : (line == "") = false := by simpa using h1
    by_cases h2 : strStarts "#" line = true
    · refine Or.inr (Or.inl ⟨h1', h2, ?_⟩)
      unfold stepCore
      rw [if_neg h1, if_pos h2]
    · have h2' : strStarts "#" line = false := by simpa using h2
      cases himg : imgSearch line.data with
      | some ap =>
        obtain ⟨alt, path⟩ := ap
        refine Or.inr (Or.inr (Or.inl ⟨h1', h2', alt, path, rfl, ?_⟩))
        unfold stepCore
        rw [if_neg h1, if_neg h2, himg]
      | none =>
        by_cases h4 : (hasPipe line && lookSep) = true
        · refine Or.inr (Or.inr (Or.inr (Or.inl ⟨h1', h2', rfl, h4, ?_⟩)))
          unfold stepCore
          rw [if_neg h1, if_neg h2, himg, if_pos h4]
        · have h4' : (hasPipe line && lookSep) = false := by simpa using h4
          by_cases h5 : (st.in_table && hasPipe line) = true
          · refine Or.inr (Or.inr (Or.inr (Or.inr (Or.inl
              ⟨h1', h2', rfl, h4', h5, ?_⟩))))
            unfold stepCore
            rw [if_neg h1, if_neg h2, himg, if_neg h4, if_pos h5]
          · have h5' : (st.in_table && hasPipe line) = false := by simpa using h5
            by_cases h6 : ((if st.in_table then flushTable st else st).in_references &&
                isRefCandidate line) = true
            · cases hpr : parseReference cy (refMarkerStrip line) with
              | ok r =>
                refine Or.inr (Or.inr (Or.inr (Or.inr (Or.inr (Or.inl
                  ⟨h1', h2', rfl, h4', h5', h6, r, rfl, ?_⟩)))))
                unfold stepCore
                rw [if_neg h1, if_neg h2, himg, if_neg h4, if_neg h5]
                simp only [if_pos h6, hpr]
              | error e =>
                refine Or.inr (Or.inr (Or.inr (Or.inr (Or.inr (Or.inr (Or.inl
                  ⟨h1', h2', rfl, h4', h5', h6, e, rfl, ?_⟩))))))
                unfold stepCore
                rw [if_neg h1, if_neg h2, himg, if_neg h4, if_neg h5]
                simp only [if_pos h6, hpr]
            · have h6' : ((if st.in_table then flushTable st else st).in_references &&
                  isRefCandidate line) = false := by simpa using h6
              refine Or.inr (Or.inr (Or.inr (Or.inr (Or.inr (Or.inr (Or.inr
                ⟨h1', h2', rfl, h4', h5', h6', ?_⟩))))))
              unfold stepCore
              rw [if_neg h1, if_neg h2, himg, if_neg h4, if_neg h5]
              simp only [if_neg h6]

/-- Helper: flushing a table changes neither the open-section presence, the closed
sections, nor the references flag. -/
theorem flushTable_fields (st : ParseState) :
    (if st.in_table then flushTable st else st).sections = st.sections
    ∧ (if st.in_table then flushTable st else st).in_references = st.in_references
    ∧ ((if st.in_table then flushTable st else st).current = none ↔
        st.current = none) := by
  by_cases ht : st.in_table
  · simp only [ht, if_true, flushTable, addTbl]
    refine ⟨trivial, trivial, ?_⟩
    cases st.current <;> simp
  · simp [ht]

/-- Helper: a run of lines none of which strips to a heading leaves the parser with
no open section, no closed sections, and the references flag off. -/
theorem parseLoop_no_heading (cy : Int) (lines : List String) :
    ∀ (i : Nat) (st : ParseState),
      (∀ l ∈ lines, strStarts "#" (pyStripS l) = false) →
      st.current = none → st.sections = [] → st.in_references = false →
      ∃ st', parseLoop cy i lines st = .ok st' ∧ st'.current = none ∧
        st'.sections = [] ∧ st'.in_references = false := by
  induction lines with
  | nil =>
    intro i st _ hc hs hr
    exact ⟨st, rfl, hc, hs, hr⟩
  | cons l rest ih =>
    intro i st hno hc hs hr
    have hl : strStarts "#" (pyStripS l) = false := hno l (by simp)
    have hrest : ∀ x ∈ rest, strStarts "#" (pyStripS x) = false :=
      fun x hx => hno x (by simp [hx])
    have hstep : ∃ st', stepLine cy i l rest.head? st = .ok st' ∧ st'.current = none ∧
        st'.sections = [] ∧ st'.in_references = false := by
      unfold stepLine
      have hrefs1 : (if st.in_table then flushTable st else st).in_references = false :=
        (flushTable_fields st).2.1.trans hr
      rcases stepCore_shape cy i (pyStripS l)
          (match rest.head? with
           | some nl => hasPipe nl && hasDash nl
           | none => false) st with
        ⟨_, heq⟩ | ⟨_, hhd, _⟩ | ⟨_, _, alt, path, _, heq⟩ | ⟨_, _, _, _, heq⟩ |
        ⟨_, _, _, _, _, heq⟩ | ⟨_, _, _, _, _, h6, r, _, heq⟩ |
        ⟨_, _, _, _, _, h6, e, _, heq⟩ | ⟨_, _, _, _, _, h6, heq⟩
      · exact ⟨st, heq, hc, hs, hr⟩
      · rw [hl] at hhd
        exact absurd hhd (by simp)
      · exact ⟨_, heq, by simp [hc, addImg], hs, hr⟩
      · exact ⟨_, heq, hc, hs, hr⟩
      · exact ⟨_, heq, hc, hs, hr⟩
      · rw [hrefs1] at h6
        exact absurd h6 (by simp)
      · rw [hrefs1] at h6
        exact absurd h6 (by simp)
      · refine ⟨_, heq, ?_, ?_, ?_⟩
        · have : (if st.in_table then flushTable st else st).current = none :=
            (flushTable_fields st).2.2.mpr hc
          simp [this, addContent]
        · simpa [flushTable_fields st] using hs
        · exact hrefs1
    obtain ⟨st', heq, h1, h2, h3⟩ := hstep
    refine (ih (i + 1) st' hrest h1 h2 h3).imp fun st'' h => ⟨?_, h.2⟩
    unfold parseLoop
    rw [heq]
    exact h.1

/-- Claim C9: the derived metadata's title is the first parsed section's title
exactly when that section has level 1 and is unset otherwise; an input whose lines
never strip to a heading parses to zero sections and an unset metadata title. -/
theorem c9_metadata_title (cy : Int) (lines : List String) :
    (∀ t, parseMarkdownLines cy lines = .ok t →
      (extractMetadata t).title =
        (match t.sections with
         | s :: _ => if s.level == 1 then some s.title else none
         | [] => none))
    ∧ ((∀ l ∈ lines, strStarts "#" (pyStripS l) = false) →
      ∃ t, parseMarkdownLines cy lines = .ok t ∧ t.sections = [] ∧
        (extractMetadata t).title = none) := by
  constructor
  · intro t _
    rfl
  · intro hno
    obtain ⟨st', heq, h1, h2, _⟩ :=
      parseLoop_no_heading cy lines 0 ParseState.init hno rfl rfl rfl
    have hsec : finalSecs st' = [] := by
      simp [finalSecs, h1, h2]
    refine ⟨{ sections := finalSecs st', tables := st'.tables, images := st'.images,
              references := st'.references, raw_content := joinNl lines }, ?_, hsec, ?_⟩
    · unfold parseMarkdownLines parseMarkdownWith
      rw [heq]
      rfl
    · simp [extractMetadata, hsec]

/-- Claim C9 witness: a two-line heading-free document parses to zero sections and
an unset metadata title. -/
theorem c9_metadata_title_witness :
    ∃ t, parseMarkdownLines 2026 ["just text", "|a| cell"] = .ok t ∧ t.sections = [] ∧
      (extractMetadata t).title = none :=
  (c9_metadata_title 2026 ["just text", "|a| cell"]).2 (by decide)

/-! ### Claim C10: stripping before classification -/

/-- Pad a line with `k` leading and `m` trailing spaces. -/
def padS (k m : Nat) (s : String) : String :=
  String.mk (List.replicate k ' ' ++ s.data ++ List.replicate m ' ')

/-- Helper: leading spaces are removed by the leading-whitespace drop. -/
theorem dropWhile_sp_rep (k : Nat) (l : List Char) :
    List.dropWhile isPySpace (List.replicate k ' ' ++ l) =
      List.dropWhile isPySpace l := by
  induction k with
  | zero => rfl
  | succ k ih => simp [List.replicate_succ, List.dropWhile_cons, isPySpace, ih]

/-- Helper: the trailing-whitespace drop of an all-space list is empty. -/
theorem dtw_rep_nil (m : Nat) :
    dropTrailWhile isPySpace (List.replicate m ' ') = [] := by
  induction m with
  | zero => rfl
  | succ m ih => simp [List.replicate_succ, dropTrailWhile, ih, isPySpace]

/-- Helper: trailing spaces are removed by the trailing-whitespace drop. -/
theorem dtw_append_rep (l : List Char) (m : Nat) :
    dropTrailWhile isPySpace (l ++ List.replicate m ' ') =
      dropTrailWhile isPySpace l := by
  induction l with
  | nil => simpa using dtw_rep_nil m
  | cons c cs ih =>
    show dropTrailWhile isPySpace (c :: (cs ++ List.replicate m ' ')) = _
    simp only [dropTrailWhile]
    rw [ih]

/-- Helper: the trailing-whitespace drop pushes through leading spaces. -/
theorem dtw_rep_append (k : Nat) (l : List Char) :
    dropTrailWhile isPySpace (List.replicate k ' ' ++ l) =
      if (dropTrailWhile isPySpace l).isEmpty then []
      else List.replicate k ' ' ++ dropTrailWhile isPySpace l := by
  induction k with
  | zero =>
    cases h : (dropTrailWhile isPySpace l).isEmpty
    · simp [h]
    · simp [h, List.isEmpty_iff.mp h]
  | succ k ih =>
    show dropTrailWhile isPySpace (' ' :: (List.replicate k ' ' ++ l)) = _
    simp only [dropTrailWhile]
    rw [ih]
    cases h : (dropTrailWhile isPySpace l).isEmpty
    · have hne : (dropTrailWhile isPySpace l) ≠ [] := by
        simpa [List.isEmpty_iff] using h
      simp [h, List.replicate_succ, List.isEmpty_iff, hne]
    · simp [h, isPySpace]

/-- Helper: Python `strip` ignores added leading and trailing spaces. -/
theorem pyStripChars_pad (k m : Nat) (l : List Char) :
    pyStripChars (List.replicate k ' ' ++ l ++ List.replicate m ' ') =
      pyStripChars l := by
  unfold pyStripChars
  rw [List.append_assoc, ← List.append_assoc, dtw_append_rep, dtw_rep_append]
  cases h : (dropTrailWhile isPySpace l).isEmpty
  · simp [h, dropWhile_sp_rep]
  · simp [h, List.isEmpty_iff.mp h]

/-- Helper: Python `strip` of a padded line equals `strip` of the line. -/
theorem pyStripS_pad (k m : Nat) (s : String) :
    pyStripS (padS k m s) = pyStripS s := by
  unfold pyStripS padS
  rw [show (String.mk (List.replicate k ' ' ++ s.data ++ List.replicate m ' ')).data =
      List.replicate k ' ' ++ s.data ++ List.replicate m ' ' from rfl,
     pyStripChars_pad]

/-- Helper: membership of a non-space character is unchanged by space padding. -/
theorem mem_pad_iff (c : Char) (hc : c ≠ ' ') (k m : Nat) (l : List Char) :
    c ∈ List.replicate k ' ' ++ l ++ List.replicate m ' ' ↔ c ∈ l := by
  constructor
  · intro h
    rcases List.mem_append.mp h with h1 | h2
    · rcases List.mem_append.mp h1 with h3 | h4
      · exact absurd (List.eq_of_mem_replicate h3) hc
      · exact h4
    · exact absurd (List.eq_of_mem_replicate h2) hc
  · intro h
    exact List.mem_append.mpr (Or.inl (List.mem_append.mpr (Or.inr h)))

/-- Helper: padding with spaces does not change the `|` membership test. -/
theorem hasPipe_pad (k m : Nat) (s : String) : hasPipe (padS k m s) = hasPipe s := by
  unfold hasPipe padS
  exact decide_eq_decide.mpr (mem_pad_iff '|' (by decide) k m s.data)

/-- Helper: padding with spaces does not change the `-` membership test. -/
theorem hasDash_pad (k m : Nat) (s : String) : hasDash (padS k m s) = hasDash s := by
  unfold hasDash padS
  exact decide_eq_decide.mpr (mem_pad_iff '-' (by decide) k m s.data)

/-- Helper: one loop step is invariant under padding the current raw line and the
raw lookahead line with spaces. -/
theorem stepLine_pad (cy : Int) (k m : Nat) (i : Nat) (raw : String)
    (next : Option String) (st : ParseState) :
    stepLine cy i (padS k m raw) (next.map (padS k m)) st =
      stepLine cy i raw next st := by
  unfold stepLine
  rw [pyStripS_pad]
  have hlook :
      (match next.map (padS k m) with
       | some nl => hasPipe nl && hasDash nl
       | none => false) =
      (match next with
       | some nl => hasPipe nl && hasDash nl
       | none => false) := by
    cases next with
    | none => rfl
    | some nl => simp [hasPipe_pad, hasDash_pad]
  rw [hlook]

/-- Helper: the whole loop is invariant under padding every line with spaces. -/
theorem parseLoop_pad (cy : Int) (k m : Nat) (lines : List String) :
    ∀ (i : Nat) (st : ParseState),
      parseLoop cy i (lines.map (padS k m)) st = parseLoop cy i lines st := by
  induction lines with
  | nil => intro i st; rfl
  | cons l rest ih =>
    intro i st
    show parseLoop cy i (padS k m l :: rest.map (padS k m)) st = _
    unfold parseLoop
    have hh : (rest.map (padS k m)).head? = rest.head?.map (padS k m) := by
      cases rest <;> rfl
    rw [hh, stepLine_pad]
    cases stepLine cy i l rest.head? st with
    | ok st' => exact ih (i + 1) st'
    | error e => rfl

/-- Helper: dropping a leading run twice is the same as once. -/
theorem dropWhile_idem (p : Char → Bool) (l : List Char) :
    List.dropWhile p (List.dropWhile p l) = List.dropWhile p l := by
  induction l with
  | nil => rfl
  | cons c cs ih =>
    by_cases pc : p c
    · simp [List.dropWhile_cons, pc, ih]
    · simp [List.dropWhile_cons, pc]

/-- Helper: dropping a trailing run twice is the same as once. -/
theorem dtw_idem (p : Char → Bool) (l : List Char) :
    dropTrailWhile p (dropTrailWhile p l) = dropTrailWhile p l := by
  induction l with
  | nil => rfl
  | cons c cs ih =>
    have hE : dropTrailWhile p (c :: cs) =
        if (dropTrailWhile p cs).isEmpty then (if p c then [] else [c])
        else c :: dropTrailWhile p cs := rfl
    cases hD : (dropTrailWhile p cs).isEmpty
    · rw [hE, hD]
      simp only [Bool.false_eq_true, if_false]
      have hE2 : dropTrailWhile p (c :: dropTrailWhile p cs) =
          if (dropTrailWhile p (dropTrailWhile p cs)).isEmpty then
            (if p c then [] else [c])
          else c :: dropTrailWhile p (dropTrailWhile p cs) := rfl
      rw [hE2, ih, hD]
      simp
    · have hnil : dropTrailWhile p cs = [] := List.isEmpty_iff.mp hD
      rw [hE, hD]
      simp only [if_true]
      by_cases pc : p c
      · simp [pc, dropTrailWhile]
      · simp [pc, dropTrailWhile, hnil]

/-- Helper: leading and trailing runs can be dropped in either order. -/
theorem dropWhile_dtw_comm (p : Char → Bool) (l : List Char) :
    List.dropWhile p (dropTrailWhile p l) = dropTrailWhile p (List.dropWhile p l) := by
  induction l with
  | nil => rfl
  | cons c cs ih =>
    have hE : dropTrailWhile p (c :: cs) =
        if (dropTrailWhile p cs).isEmpty then (if p c then [] else [c])
        else c :: dropTrailWhile p cs := rfl
    by_cases pc : p c
    · cases hD : (dropTrailWhile p cs).isEmpty
      · calc List.dropWhile p (dropTrailWhile p (c :: cs))
            = List.dropWhile p (c :: dropTrailWhile p cs) := by rw [hE, hD]; simp
          _ = List.dropWhile p (dropTrailWhile p cs) := by
              simp [List.dropWhile_cons, pc]
          _ = dropTrailWhile p (List.dropWhile p cs) := ih
          _ = dropTrailWhile p (List.dropWhile p (c :: cs)) := by
              simp [List.dropWhile_cons, pc]
      · have hnil : dropTrailWhile p cs = [] := List.isEmpty_iff.mp hD
        calc List.dropWhile p (dropTrailWhile p (c :: cs))
            = List.dropWhile p (if p c then [] else [c]) := by rw [hE, hD]; simp
          _ = [] := by simp [pc]
          _ = List.dropWhile p (dropTrailWhile p cs) := by simp [hnil]
          _ = dropTrailWhile p (List.dropWhile p cs) := ih
          _ = dropTrailWhile p (List.dropWhile p (c :: cs)) := by
              simp [List.dropWhile_cons, pc]
    · cases hD : (dropTrailWhile p cs).isEmpty
      · calc List.dropWhile p (dropTrailWhile p (c :: cs))
            = List.dropWhile p (c :: dropTrailWhile p cs) := by rw [hE, hD]; simp
          _ = c :: dropTrailWhile p cs := by simp [List.dropWhile_cons, pc]
          _ = dropTrailWhile p (c :: cs) := by rw [hE, hD]; simp
          _ = dropTrailWhile p (List.dropWhile p (c :: cs)) := by
              simp [List.dropWhile_cons, pc]
      · have hnil : dropTrailWhile p cs = [] := List.isEmpty_iff.mp hD
        calc List.dropWhile p (dropTrailWhile p (c :: cs))
            = List.dropWhile p (if p c then [] else [c]) := by rw [hE, hD]; simp
          _ = [c] := by simp [pc]
          _ = dropTrailWhile p (c :: cs) := by rw [hE, hD]; simp [pc]
          _ = dropTrailWhile p (List.dropWhile p (c :: cs)) := by
              simp [List.dropWhile_cons, pc]

/-- Helper: Python `strip` is idempotent on character lists. -/
theorem pyStripChars_idem (l : List Char) :
    pyStripChars (pyStripChars l) = pyStripChars l := by
  unfold pyStripChars
  rw [← dropWhile_dtw_comm, dtw_idem, dropWhile_idem]

/-- Helper: Python `strip` is idempotent on strings. -/
theorem pyStripS_idem (s : String) : pyStripS (pyStripS s) = pyStripS s := by
  unfold pyStripS
  rw [show (String.mk (pyStripChars s.data)).data = pyStripChars s.data from rfl,
    pyStripChars_idem]

/-- Helper: flushing preserves the open section's content. -/
theorem flushTable_current_content (st : ParseState) :
    ((if st.in_table then flushTable st else st).current).map MdSection.content =
      st.current.map MdSection.content := by
  by_cases ht : st.in_table
  · simp only [ht, if_true, flushTable, addTbl]
    cases st.current <;> simp
  · simp [ht]

/-- Helper: one successful step preserves "every stored content line is
strip-fixed" for both closed sections and the open section. -/
theorem stepLine_trim (cy : Int) (i : Nat) (raw : String) (next : Option String)
    (st st' : ParseState) (h : stepLine cy i raw next st = .ok st')
    (hsec : ∀ s ∈ st.sections, ∀ c ∈ s.content, pyStripS c = c)
    (hcur : ∀ cs, st.current = some cs → ∀ c ∈ cs.content, pyStripS c = c) :
    (∀ s ∈ st'.sections, ∀ c ∈ s.content, pyStripS c = c)
    ∧ (∀ cs, st'.current = some cs → ∀ c ∈ cs.content, pyStripS c = c) := by
  unfold stepLine at h
  have hs1 : ∀ s ∈ (if st.in_table then flushTable st else st).sections,
      ∀ c ∈ s.content, pyStripS c = c := by
    rw [(flushTable_fields st).1]
    exact hsec
  have hc1 : ∀ cs, (if st.in_table then flushTable st else st).current = some cs →
      ∀ c ∈ cs.content, pyStripS c = c := by
    intro cs hcs c hc
    have hm := flushTable_current_content st
    rw [hcs] at hm
    cases hcu : st.current with
    | none => rw [hcu] at hm; simp at hm
    | some c0 =>
      rw [hcu] at hm
      simp only [Option.map_some'] at hm
      have : cs.content = c0.content := by
        exact Option.some.inj hm
      exact hcur c0 hcu c (this ▸ hc)
  revert h
  generalize (match next with
    | some nl => hasPipe nl && hasDash nl
    | none => false) = look
  intro h
  rcases stepCore_shape cy i (pyStripS raw) look st with
    ⟨_, heq⟩ | ⟨_, _, heq⟩ | ⟨_, _, alt, path, _, heq⟩ | ⟨_, _, _, _, heq⟩ |
    ⟨_, _, _, _, _, heq⟩ | ⟨_, _, _, _, _, _, r, _, heq⟩ |
    ⟨_, _, _, _, _, _, e, _, heq⟩ | ⟨_, _, _, _, _, _, heq⟩ <;>
    rw [heq] at h <;> cases h
  · exact ⟨hsec, hcur⟩
  · -- heading: close the open section, start a fresh one
    constructor
    · intro s hs c hc
      rcases List.mem_append.mp hs with h1 | h2
      · exact hsec s h1 c hc
      · cases hcu : st.current with
        | none => rw [hcu] at h2; simp at h2
        | some c0 =>
          rw [hcu] at h2
          simp only [Option.toList_some, List.mem_singleton] at h2
          subst h2
          exact hcur _ hcu c hc
    · intro cs hcs c hc
      simp only [headingStep, Option.some.injEq] at hcs
      rw [← hcs] at hc
      simp at hc
  · -- image
    refine ⟨hsec, ?_⟩
    intro cs hcs c hc
    cases hcu : st.current with
    | none => rw [hcu] at hcs; simp [addImg] at hcs
    | some c0 =>
      rw [hcu] at hcs
      simp only [addImg, Option.map_some', Option.some.injEq] at hcs
      rw [← hcs] at hc
      exact hcur c0 hcu c hc
  · exact ⟨hsec, hcur⟩
  · exact ⟨hsec, hcur⟩
  · exact ⟨hs1, hc1⟩
  · -- content line: the appended line is the stripped raw line
    refine ⟨hs1, ?_⟩
    intro cs hcs c hc
    cases hcu : (if st.in_table then flushTable st else st).current with
    | none => rw [hcu] at hcs; simp [addContent] at hcs
    | some c0 =>
      rw [hcu] at hcs
      simp only [addContent, Option.map_some', Option.some.injEq] at hcs
      rw [← hcs] at hc
      simp only [List.mem_append, List.mem_singleton] at hc
      rcases hc with hc | hc
      · exact hc1 c0 hcu c hc
      · subst hc
        exact pyStripS_idem raw

/-- Helper: the loop preserves strip-fixedness of all stored content lines. -/
theorem parseLoop_trim (cy : Int) (lines : List String) :
    ∀ (i : Nat) (st st' : ParseState),
      parseLoop cy i lines st = .ok st' →
      (∀ s ∈ st.sections, ∀ c ∈ s.content, pyStripS c = c) →
      (∀ cs, st.current = some cs → ∀ c ∈ cs.content, pyStripS c = c) →
      (∀ s ∈ st'.sections, ∀ c ∈ s.content, pyStripS c = c)
      ∧ (∀ cs, st'.current = some cs → ∀ c ∈ cs.content, pyStripS c = c) := by
  induction lines with
  | nil =>
    intro i st st' h hsec hcur
    cases h
    exact ⟨hsec, hcur⟩
  | cons l rest ih =>
    intro i st st' h hsec hcur
    unfold parseLoop at h
    cases hstep : stepLine cy i l rest.head? st with
    | ok st1 =>
      rw [hstep] at h
      obtain ⟨h1, h2⟩ := stepLine_trim cy i l rest.head? st st1 hstep hsec hcur
      exact ih (i + 1) st1 st' h h1 h2
    | error e =>
      rw [hstep] at h
      cases h

/-- Claim C10: every line is stripped before any classification rule applies, so
padding every line with leading/trailing spaces leaves the whole parse unchanged
(the table-start lookahead reads the raw next line, but space padding cannot change
its `|`/`-` membership tests), and every stored section-content line is
strip-fixed, i.e. stored trimmed. -/
theorem c10_strip_before_classification (cy : Int) (k m : Nat) (lines : List String) :
    parseLoop cy 0 (lines.map (padS k m)) ParseState.init =
      parseLoop cy 0 lines ParseState.init
    ∧ ∀ st, parseLoop cy 0 lines ParseState.init = .ok st →
        ∀ s ∈ finalSecs st, ∀ c ∈ s.content, pyStripS c = c := by
  constructor
  · exact parseLoop_pad cy k m lines 0 ParseState.init
  · intro st h s hs c hc
    obtain ⟨h1, h2⟩ := parseLoop_trim cy lines 0 ParseState.init st h
      (by intro s hs; simp [ParseState.init] at hs)
      (by intro cs hcs; simp [ParseState.init] at hcs)
    rcases List.mem_append.mp hs with hm | hm
    · exact h1 s hm c hc
    · cases hcu : st.current with
      | none => rw [hcu] at hm; simp at hm
      | some c0 =>
        rw [hcu] at hm
        simp only [Option.toList_some, List.mem_singleton] at hm
        subst hm
        exact h2 s hcu c hc

/-- Claim C10 witness: padding a two-line document with spaces leaves the parse
unchanged, and the stored content line of the parse is strip-fixed. -/
theorem c10_strip_before_classification_witness :
    parseLoop 2026 0 (["# T", "  a b  "].map (padS 2 1)) ParseState.init =
      parseLoop 2026 0 ["# T", "  a b  "] ParseState.init
    ∧ pyStripS "a b" = "a b" := by
  have h := c10_strip_before_classification 2026 2 1 ["# T", "  a b  "]
  refine ⟨h.1, ?_⟩
  exact h.2
    { sections := [], tables := [], images := [], references := [],
      current := some { level := 1, title := "T", content := ["a b"], tables := [],
                        images := [] },
      in_table := false, table_content := [], in_references := false }
    rfl
    { level := 1, title := "T", content := ["a b"], tables := [], images := [] }
    (by simp [finalSecs])
    "a b" (by simp)

/-! ### Claim C8: flat lists versus section-local lists

To reason about which section was open when a table or image was emitted, the
loop is instrumented: flat-list entries carry an optional tag, the index that the
then-open section will occupy in the final section list (`none` when no section
was open).  The instrumented loop erases (`eraseTS`) to the plain one. -/

/-- Loop state of the instrumented parser: flat tables and images carry the index
of the section open at their emission. -/
structure TState where
  sections : List MdSection
  tables : List (MdTable × Option Nat)
  images : List (MdImage × Option Nat)
  references : List Reference
  current : Option MdSection
  in_table : Bool
  table_content : List String
  in_references : Bool
deriving DecidableEq, Repr

/-- Initial instrumented state. -/
def TState.init : TState :=
  { sections := [], tables := [], images := [], references := [],
    current := none, in_table := false, table_content := [], in_references := false }

/-- Erase the instrumentation tags. -/
def eraseTS (ts : TState) : ParseState :=
  { sections := ts.sections, tables := ts.tables.map Prod.fst,
    images := ts.images.map Prod.fst, references := ts.references,
    current := ts.current, in_table := ts.in_table,
    table_content := ts.table_content, in_references := ts.in_references }

/-- Instrumented heading handling (identical to `headingStep`; no flat lists touched). -/
def headingStepT (line : String) (ts : TState) : TState :=
  let level := (line.data.takeWhile (fun c => c == '#')).length
  let title := String.mk (pyStripChars (line.data.dropWhile (fun c => c == '#')))
  { ts with sections := ts.sections ++ ts.current.toList,
            current := some { level := level, title := title, content := [],
                              tables := [], images := [] },
            in_references := isRefTitle title }

/-- Instrumented table flush: the emitted table is tagged with the index the open
section will occupy in the final section list (its emission moment). -/
def flushTableT (ts : TState) : TState :=
  let td := parseTable ts.table_content
  { ts with tables := ts.tables ++ [(td, ts.current.map fun _ => ts.sections.length)],
            current := addTbl ts.current td, in_table := false, table_content := [] }

/-- Instrumented loop step, mirroring `stepCore` with tagged flat lists. -/
def stepCoreT (cy : Int) (i : Nat) (line : String) (lookSep : Bool)
    (ts : TState) : Except String TState :=
  if line == "" then .ok ts
  else if strStarts "#" line then .ok (headingStepT line ts)
  else
    match imgSearch line.data with
    | some (alt, path) =>
      let img : MdImage := { alt_text := String.mk alt, path := String.mk path,
                             caption := String.mk alt, line_number := i + 1 }
      .ok { ts with
            images := ts.images ++ [(img, ts.current.map fun _ => ts.sections.length)],
            current := addImg ts.current img }
    | none =>
      if hasPipe line && lookSep then
        .ok { ts with in_table := true, table_content := [line] }
      else if ts.in_table && hasPipe line then
        .ok { ts with table_content := ts.table_content ++ [line] }
      else
        let ts1 := if ts.in_table then flushTableT ts else ts
        if ts1.in_references && isRefCandidate line then
          match parseReference cy (refMarkerStrip line) with
          | .ok r => .ok { ts1 with references := ts1.references ++ [r] }
          | .error e => .error e
        else
          .ok { ts1 with current := addContent ts1.current line }

/-- Instrumented step on the raw line. -/
def stepLineT (cy : Int) (i : Nat) (raw : String) (nextRaw : Option String)
    (ts : TState) : Except String TState :=
  stepCoreT cy i (pyStripS raw)
    (match nextRaw with
     | some nl => hasPipe nl && hasDash nl
     | none => false) ts

/-- Instrumented loop. -/
def parseLoopT (cy : Int) : Nat → List String → TState → Except String TState
  | _, [], ts => .ok ts
  | i, l :: rest, ts =>
    match stepLineT cy i l rest.head? ts with
    | .ok ts' => parseLoopT cy (i + 1) rest ts'
    | .error e => .error e

/-- Result of the instrumented parse. -/
structure TagTree where
  sections : List MdSection
  tables : List (MdTable × Option Nat)
  images : List (MdImage × Option Nat)
  references : List Reference
deriving DecidableEq, Repr

/-- Instrumented `_parse_markdown` on a line list. -/
def parseTaggedLines (cy : Int) (lines : List String) : Except String TagTree :=
  (parseLoopT cy 0 lines TState.init).map fun ts =>
    { sections := ts.sections ++ ts.current.toList, tables := ts.tables,
      images := ts.images, references := ts.references }

/-- Erase a tagged tree to a plain parse tree with the given raw content. -/
def eraseTree (tt : TagTree) (raw : String) : ParseTree :=
  { sections := tt.sections, tables := tt.tables.map Prod.fst,
    images := tt.images.map Prod.fst, references := tt.references, raw_content := raw }

/-- Helper: flushing commutes with erasing the instrumentation. -/
theorem flushTable_erase (ts : TState) :
    flushTable (eraseTS ts) = eraseTS (flushTableT ts) := by
  simp [flushTable, flushTableT, eraseTS, addTbl, List.map_append]

/-- Helper: one instrumented step erases to one plain step. -/
theorem stepCoreT_erase (cy : Int) (i : Nat) (line : String) (lookSep : Bool)
    (ts : TState) :
    stepCore cy i line lookSep (eraseTS ts) =
      (stepCoreT cy i line lookSep ts).map eraseTS := by
  unfold stepCore stepCoreT
  by_cases h1 : (line == "") = true
  · simp [h1, Except.map]
  · have h1' : (line == "") = false := by simpa using h1
    by_cases h2 : strStarts "#" line = true
    · simp only [h1', h2, Bool.false_eq_true, if_false, if_true, Except.map]
      show Except.ok (headingStep line (eraseTS ts)) = _
      simp [headingStep, headingStepT, eraseTS]
    · have h2' : strStarts "#" line = false := by simpa using h2
      cases himg : imgSearch line.data with
      | some ap =>
        obtain ⟨alt, path⟩ := ap
        simp only [h1', h2', himg, Bool.false_eq_true, if_false, Except.map]
        simp [eraseTS, addImg, List.map_append]
      | none =>
        simp only [h1', h2', himg, Bool.false_eq_true, if_false]
        by_cases h4 : (hasPipe line && lookSep) = true
        · simp [h4, Except.map, eraseTS]
        · have h4' : (hasPipe line && lookSep) = false := by simpa using h4
          by_cases h5 : (ts.in_table && hasPipe line) = true
          · have h5e : ((eraseTS ts).in_table && hasPipe line) = true := h5
            simp [h4', h5, h5e, Except.map, eraseTS]
          · have h5' : (ts.in_table && hasPipe line) = false := by simpa using h5
            have h5e : ((eraseTS ts).in_table && hasPipe line) = false := h5'
            simp only [h4', h5', h5e, Bool.false_eq_true, if_false]
            have hst1 : (if (eraseTS ts).in_table then flushTable (eraseTS ts)
                else eraseTS ts) = eraseTS (if ts.in_table then flushTableT ts else ts) := by
              by_cases ht : ts.in_table
              · have hte : (eraseTS ts).in_table = true := ht
                simp [ht, hte, flushTable_erase]
              · have ht' : ts.in_table = false := by simpa using ht
                have hte : (eraseTS ts).in_table = false := ht'
                simp [ht', hte]
            rw [hst1]
            by_cases h6 : ((eraseTS (if ts.in_table then flushTableT ts else ts)).in_references
                && isRefCandidate line) = true
            · have h6t : ((if ts.in_table then flushTableT ts else ts).in_references
                  && isRefCandidate line) = true := h6
              simp only [h6, h6t, if_true]
              cases hpr : parseReference cy (refMarkerStrip line) with
              | ok r => simp [Except.map, eraseTS]
              | error e => simp [Except.map]
            · have h6' : ((eraseTS (if ts.in_table then flushTableT ts else ts)).in_references
                  && isRefCandidate line) = false := by simpa using h6
              have h6t : ((if ts.in_table then flushTableT ts else ts).in_references
                  && isRefCandidate line) = false := h6'
              simp only [h6', h6t, Bool.false_eq_true, if_false, Except.map]
              simp [eraseTS, addContent]

/-- Flat-list entries owned by section index `i`: the entries tagged `some i`. -/
def ownedIn {α : Type} (fl : List (α × Option Nat)) (i : Nat) : List α :=
  (fl.filter (fun q => decide (q.2 = some i))).map Prod.fst

/-- Does every section, counting from index `i`, hold exactly the flat-list
entries tagged with its own index? -/
def sownBy {α : Type} [DecidableEq α] (get : MdSection → List α)
    (fl : List (α × Option Nat)) : Nat → List MdSection → Bool
  | _, [] => true
  | i, s :: rest => decide (get s = ownedIn fl i) && sownBy get fl (i + 1) rest

/-- Helper: an untagged entry belongs to no section. -/
theorem ownedIn_append_none {α : Type} (fl : List (α × Option Nat)) (a : α) (i : Nat) :
    ownedIn (fl ++ [(a, none)]) i = ownedIn fl i := by
  simp [ownedIn, List.filter_append]

/-- Helper: appending an entry tagged `m` extends exactly section `m`'s view. -/
theorem ownedIn_append_some {α : Type} (fl : List (α × Option Nat)) (a : α)
    (m i : Nat) :
    ownedIn (fl ++ [(a, some m)]) i = ownedIn fl i ++ (if i = m then [a] else []) := by
  by_cases him : i = m
  · simp [ownedIn, List.filter_append, him]
  · simp [ownedIn, List.filter_append, him, Ne.symm him]

/-- Helper: `sownBy` ignores untagged appends. -/
theorem sownBy_append_none {α : Type} [DecidableEq α] (get : MdSection → List α)
    (fl : List (α × Option Nat)) (a : α) (secs : List MdSection) :
    ∀ i : Nat, sownBy get (fl ++ [(a, none)]) i secs = sownBy get fl i secs := by
  induction secs with
  | nil => intro i; rfl
  | cons s rest ih => intro i; simp [sownBy, ownedIn_append_none, ih]

/-- Helper: `sownBy` over sections below `m` ignores an append tagged `m`. -/
theorem sownBy_append_hi {α : Type} [DecidableEq α] (get : MdSection → List α)
    (fl : List (α × Option Nat)) (a : α) (m : Nat) (secs : List MdSection) :
    ∀ i : Nat, i + secs.length ≤ m →
      sownBy get (fl ++ [(a, some m)]) i secs = sownBy get fl i secs := by
  induction secs with
  | nil => intro i _; rfl
  | cons s rest ih =>
    intro i hle
    simp only [List.length_cons] at hle
    have hne : i ≠ m := by omega
    simp [sownBy, ownedIn_append_some, hne, ih (i + 1) (by omega)]

/-- Helper: `sownBy` over a snoc splits off the last section's condition. -/
theorem sownBy_snoc {α : Type} [DecidableEq α] (get : MdSection → List α)
    (fl : List (α × Option Nat)) (c : MdSection) (secs : List MdSection) :
    ∀ i : Nat, sownBy get fl i (secs ++ [c]) =
      (sownBy get fl i secs && decide (get c = ownedIn fl (i + secs.length))) := by
  induction secs with
  | nil => intro i; simp [sownBy]
  | cons s rest ih =>
    intro i
    show (decide (get s = ownedIn fl i) && sownBy get fl (i + 1) (rest ++ [c])) = _
    rw [ih (i + 1)]
    have harith : i + 1 + rest.length = i + (rest.length + 1) := by omega
    rw [harith, ← Bool.and_assoc]
    rfl

/-- The invariant tying flat tagged lists to section-local lists: every closed
section holds exactly its own tags, the open section holds exactly the tags at the
next index, and no higher index is tagged yet. -/
def InvT (ts : TState) : Prop :=
  sownBy MdSection.tables ts.tables 0 ts.sections = true
  ∧ sownBy MdSection.images ts.images 0 ts.sections = true
  ∧ (∀ c, ts.current = some c →
      c.tables = ownedIn ts.tables ts.sections.length ∧
      c.images = ownedIn ts.images ts.sections.length)
  ∧ ∀ j, ts.sections.length + (if ts.current.isSome then 1 else 0) ≤ j →
      ownedIn ts.tables j = [] ∧ ownedIn ts.images j = []

/-- The initial instrumented state satisfies the invariant. -/
theorem InvT_init : InvT TState.init := by
  refine ⟨rfl, rfl, ?_, ?_⟩
  · intro c hc
    simp [TState.init] at hc
  · intro j _
    exact ⟨rfl, rfl⟩

/-- Helper: a heading step preserves the invariant. -/
theorem InvT_heading (line : String) (ts : TState) (h : InvT ts) :
    InvT (headingStepT line ts) := by
  obtain ⟨h1, h2, h3, h4⟩ := h
  cases hcu : ts.current with
  | none =>
    refine ⟨?_, ?_, ?_, ?_⟩
    · simpa [headingStepT, hcu] using h1
    · simpa [headingStepT, hcu] using h2
    · intro c hc
      simp only [headingStepT, Option.some.injEq] at hc
      have hb := h4 ts.sections.length (by simp [hcu])
      constructor
      · rw [← hc]
        show ([] : List MdTable) = _
        rw [show (headingStepT line ts).sections = ts.sections ++ ts.current.toList
          from rfl, hcu]
        simpa using hb.1.symm
      · rw [← hc]
        show ([] : List MdImage) = _
        rw [show (headingStepT line ts).sections = ts.sections ++ ts.current.toList
          from rfl, hcu]
        simpa using hb.2.symm
    · intro j hj
      apply h4 j
      rw [show (headingStepT line ts).sections = ts.sections ++ ts.current.toList
        from rfl, hcu] at hj
      simp at hj
      simp [hcu]
      omega
  | some c0 =>
    have hsecs : (headingStepT line ts).sections = ts.sections ++ [c0] := by
      rw [show (headingStepT line ts).sections = ts.sections ++ ts.current.toList
        from rfl, hcu]
      rfl
    refine ⟨?_, ?_, ?_, ?_⟩
    · rw [show (headingStepT line ts).tables = ts.tables from rfl, hsecs,
        sownBy_snoc]
      simp [h1, Nat.zero_add, (h3 c0 hcu).1]
    · rw [show (headingStepT line ts).images = ts.images from rfl, hsecs,
        sownBy_snoc]
      simp [h2, Nat.zero_add, (h3 c0 hcu).2]
    · intro c hc
      simp only [headingStepT, Option.some.injEq] at hc
      have hb := h4 (ts.sections.length + 1) (by simp [hcu])
      rw [← hc, hsecs]
      constructor
      · show ([] : List MdTable) = _
        simpa using hb.1.symm
      · show ([] : List MdImage) = _
        simpa using hb.2.symm
    · intro j hj
      apply h4 j
      rw [hsecs] at hj
      simp at hj
      simp [hcu]
      omega

/-- Helper: a table flush preserves the invariant. -/
theorem InvT_flush (ts : TState) (h : InvT ts) : InvT (flushTableT ts) := by
  obtain ⟨h1, h2, h3, h4⟩ := h
  cases hcu : ts.current with
  | none =>
    refine ⟨?_, h2, ?_, ?_⟩
    · show sownBy MdSection.tables
        (ts.tables ++ [(parseTable ts.table_content,
          ts.current.map fun _ => ts.sections.length)]) 0 ts.sections = true
      rw [hcu]
      simpa [sownBy_append_none] using h1
    · intro c hc
      rw [show (flushTableT ts).current = addTbl ts.current
        (parseTable ts.table_content) from rfl, hcu] at hc
      simp [addTbl] at hc
    · intro j hj
      have hj' : ts.sections.length + (if ts.current.isSome then 1 else 0) ≤ j := by
        rw [show (flushTableT ts).sections = ts.sections from rfl] at hj
        rw [show (flushTableT ts).current = addTbl ts.current
          (parseTable ts.table_content) from rfl, hcu] at hj
        simpa [addTbl, hcu] using hj
      refine ⟨?_, (h4 j hj').2⟩
      show ownedIn (ts.tables ++ [(parseTable ts.table_content,
        ts.current.map fun _ => ts.sections.length)]) j = []
      rw [hcu]
      simpa [ownedIn_append_none] using (h4 j hj').1
  | some c0 =>
    have htag : (ts.current.map fun _ => ts.sections.length) =
        some ts.sections.length := by rw [hcu]; rfl
    refine ⟨?_, h2, ?_, ?_⟩
    · show sownBy MdSection.tables
        (ts.tables ++ [(parseTable ts.table_content,
          ts.current.map fun _ => ts.sections.length)]) 0 ts.sections = true
      rw [htag, sownBy_append_hi _ _ _ _ _ 0 (by omega)]
      exact h1
    · intro c hc
      rw [show (flushTableT ts).current = addTbl ts.current
        (parseTable ts.table_content) from rfl, hcu] at hc
      simp only [addTbl, Option.map_some', Option.some.injEq] at hc
      rw [← hc]
      constructor
      · show c0.tables ++ [parseTable ts.table_content] = _
        show _ = ownedIn (ts.tables ++ [(parseTable ts.table_content,
          ts.current.map fun _ => ts.sections.length)]) (flushTableT ts).sections.length
        rw [htag, show (flushTableT ts).sections = ts.sections from rfl,
          ownedIn_append_some]
        simp [(h3 c0 hcu).1]
      · show c0.images = _
        exact (h3 c0 hcu).2
    · intro j hj
      have hj' : ts.sections.length + (if ts.current.isSome then 1 else 0) ≤ j := by
        rw [show (flushTableT ts).sections = ts.sections from rfl] at hj
        rw [show (flushTableT ts).current = addTbl ts.current
          (parseTable ts.table_content) from rfl, hcu] at hj
        simpa [addTbl, hcu] using hj
      have hjne : j ≠ ts.sections.length := by
        rw [hcu] at hj'
        simp at hj'
        omega
      refine ⟨?_, (h4 j hj').2⟩
      show ownedIn (ts.tables ++ [(parseTable ts.table_content,
        ts.current.map fun _ => ts.sections.length)]) j = []
      rw [htag, ownedIn_append_some]
      simp [hjne, (h4 j hj').1]

/-- Helper: an image emission preserves the invariant. -/
theorem InvT_image (img : MdImage) (ts : TState) (h : InvT ts) :
    InvT { ts with
           images := ts.images ++ [(img, ts.current.map fun _ => ts.sections.length)],
           current := addImg ts.current img } := by
  obtain ⟨h1, h2, h3, h4⟩ := h
  cases hcu : ts.current with
  | none =>
    refine ⟨h1, ?_, ?_, ?_⟩
    · show sownBy MdSection.images (ts.images ++ [(img, none)]) 0 ts.sections = true
      rw [sownBy_append_none]
      exact h2
    · intro c hc
      exact absurd (show (none : Option MdSection) = some c from hc) (by simp)
    · intro j hj
      have hj0 : ts.sections.length + 0 ≤ j := hj
      have hj' : ts.sections.length + (if ts.current.isSome then 1 else 0) ≤ j := by
        rw [hcu]
        simpa using hj0
      refine ⟨(h4 j hj').1, ?_⟩
      show ownedIn (ts.images ++ [(img, none)]) j = []
      rw [ownedIn_append_none]
      exact (h4 j hj').2
  | some c0 =>
    refine ⟨h1, ?_, ?_, ?_⟩
    · show sownBy MdSection.images
        (ts.images ++ [(img, some ts.sections.length)]) 0 ts.sections = true
      rw [sownBy_append_hi _ _ _ _ _ 0 (by omega)]
      exact h2
    · intro c hc
      have hc' : some { c0 with images := c0.images ++ [img] } = some c := hc
      obtain rfl : { c0 with images := c0.images ++ [img] } = c := Option.some.inj hc'
      constructor
      · show c0.tables = ownedIn ts.tables ts.sections.length
        exact (h3 c0 hcu).1
      · show c0.images ++ [img] =
          ownedIn (ts.images ++ [(img, some ts.sections.length)]) ts.sections.length
        rw [ownedIn_append_some]
        simp [(h3 c0 hcu).2]
    · intro j hj
      have hj0 : ts.sections.length + 1 ≤ j := hj
      have hj' : ts.sections.length + (if ts.current.isSome then 1 else 0) ≤ j := by
        rw [hcu]
        simpa using hj0
      have hjne : j ≠ ts.sections.length := by omega
      refine ⟨(h4 j hj').1, ?_⟩
      show ownedIn (ts.images ++ [(img, some ts.sections.length)]) j = []
      rw [ownedIn_append_some]
      simp [hjne, (h4 j hj').2]

/-- Helper: appending a content line preserves the invariant. -/
theorem InvT_content (line : String) (ts : TState) (h : InvT ts) :
    InvT { ts with current := addContent ts.current line } := by
  obtain ⟨h1, h2, h3, h4⟩ := h
  refine ⟨h1, h2, ?_, ?_⟩
  · intro c hc
    cases hcu : ts.current with
    | none => simp [hcu, addContent] at hc
    | some c0 =>
      simp only [hcu, addContent, Option.map_some', Option.some.injEq] at hc
      rw [← hc]
      exact h3 c0 hcu
  · intro j hj
    apply h4 j
    cases hcu : ts.current <;> simpa [addContent, hcu] using hj

/-- Helper: exhaustive case description of one instrumented loop step. -/
theorem stepCoreT_shape (cy : Int) (i : Nat) (line : String) (lookSep : Bool)
    (ts : TState) :
    ((line == "") = true ∧ stepCoreT cy i line lookSep ts = .ok ts)
    ∨ ((line == "") = false ∧ strStarts "#" line = true ∧
        stepCoreT cy i line lookSep ts = .ok (headingStepT line ts))
    ∨ ((line == "") = false ∧ strStarts "#" line = false ∧
        (∃ alt path, imgSearch line.data = some (alt, path) ∧
          stepCoreT cy i line lookSep ts =
            .ok { ts with
                  images := ts.images ++
                    [({ alt_text := String.mk alt, path := String.mk path,
                        caption := String.mk alt, line_number := i + 1 },
                      ts.current.map fun _ => ts.sections.length)],
                  current := addImg ts.current
                    { alt_text := String.mk alt, path := String.mk path,
                      caption := String.mk alt, line_number := i + 1 } }))
    ∨ ((line == "") = false ∧ strStarts "#" line = false ∧ imgSearch line.data = none ∧
        (hasPipe line && lookSep) = true ∧
        stepCoreT cy i line lookSep ts =
          .ok { ts with in_table := true, table_content := [line] })
    ∨ ((line == "") = false ∧ strStarts "#" line = false ∧ imgSearch line.data = none ∧
        (hasPipe line && lookSep) = false ∧ (ts.in_table && hasPipe line) = true ∧
        stepCoreT cy i line lookSep ts =
          .ok { ts with table_content := ts.table_content ++ [line] })
    ∨ ((line == "") = false ∧ strStarts "#" line = false ∧ imgSearch line.data = none ∧
        (hasPipe line && lookSep) = false ∧ (ts.in_table && hasPipe line) = false ∧
        ((if ts.in_table then flushTableT ts else ts).in_references &&
          isRefCandidate line) = true ∧
        (∃ r, parseReference cy (refMarkerStrip line) = .ok r ∧
          stepCoreT cy i line lookSep ts =
            .ok { (if ts.in_table then flushTableT ts else ts) with
                  references :=
                    (if ts.in_table then flushTableT ts else ts).references ++ [r] }))
    ∨ ((line == "") = false ∧ strStarts "#" line = false ∧ imgSearch line.data = none ∧
        (hasPipe line && lookSep) = false ∧ (ts.in_table && hasPipe line) = false ∧
        ((if ts.in_table then flushTableT ts else ts).in_references &&
          isRefCandidate line) = true ∧
        (∃ e, parseReference cy (refMarkerStrip line) = .error e ∧
          stepCoreT cy i line lookSep ts = .error e))
    ∨ ((line == "") = false ∧ strStarts "#" line = false ∧ imgSearch line.data = none ∧
        (hasPipe line && lookSep) = false ∧ (ts.in_table && hasPipe line) = false ∧
        ((if ts.in_table then flushTableT ts else ts).in_references &&
          isRefCandidate line) = false ∧
        stepCoreT cy i line lookSep ts =
          .ok { (if ts.in_table then flushTableT ts else ts) with
                current :=
                  addContent (if ts.in_table then flushTableT ts else ts).current
                    line }) := by
  by_cases h1 : (line == "") = true
  · exact Or.inl ⟨h1, by unfold stepCoreT; rw [if_pos h1]⟩
  · have h1' : (line == "") = false := by simpa using h1
    by_cases h2 : strStarts "#" line = true
    · refine Or.inr (Or.inl ⟨h1', h2, ?_⟩)
      unfold stepCoreT
      rw [if_neg h1, if_pos h2]
    · have h2' : strStarts "#" line = false := by simpa using h2
      cases himg : imgSearch line.data with
      | some ap =>
        obtain ⟨alt, path⟩ := ap
        refine Or.inr (Or.inr (Or.inl ⟨h1', h2', alt, path, rfl, ?_⟩))
        unfold stepCoreT
        rw [if_neg h1, if_neg h2, himg]
      | none =>
        by_cases h4 : (hasPipe line && lookSep) = true
        · refine Or.inr (Or.inr (Or.inr (Or.inl ⟨h1', h2', rfl, h4, ?_⟩)))
          unfold stepCoreT
          rw [if_neg h1, if_neg h2, himg, if_pos h4]
        · have h4' : (hasPipe line && lookSep) = false := by simpa using h4
          by_cases h5 : (ts.in_table && hasPipe line) = true
          · refine Or.inr (Or.inr (Or.inr (Or.inr (Or.inl
              ⟨h1', h2', rfl, h4', h5, ?_⟩))))
            unfold stepCoreT
            rw [if_neg h1, if_neg h2, himg, if_neg h4, if_pos h5]
          · have h5' : (ts.in_table && hasPipe line) = false := by simpa using h5
            by_cases h6 : ((if ts.in_table then flushTableT ts else ts).in_references &&
                isRefCandidate line) = true
            · cases hpr : parseReference cy (refMarkerStrip line) with
              | ok r =>
                refine Or.inr (Or.inr (Or.inr (Or.inr (Or.inr (Or.inl
                  ⟨h1', h2', rfl, h4', h5', h6, r, rfl, ?_⟩)))))
                unfold stepCoreT
                rw [if_neg h1, if_neg h2, himg, if_neg h4, if_neg h5]
                simp only [if_pos h6, hpr]
              | error e =>
                refine Or.inr (Or.inr (Or.inr (Or.inr (Or.inr (Or.inr (Or.inl
                  ⟨h1', h2', rfl, h4', h5', h6, e, rfl, ?_⟩))))))
                unfold stepCoreT
                rw [if_neg h1, if_neg h2, himg, if_neg h4, if_neg h5]
                simp only [if_pos h6, hpr]
            · have h6' : ((if ts.in_table then flushTableT ts else ts).in_references &&
                  isRefCandidate line) = false := by simpa using h6
              refine Or.inr (Or.inr (Or.inr (Or.inr (Or.inr (Or.inr (Or.inr
                ⟨h1', h2', rfl, h4', h5', h6', ?_⟩))))))
              unfold stepCoreT
              rw [if_neg h1, if_neg h2, himg, if_neg h4, if_neg h5]
              simp only [if_neg h6]

/-- Helper: one successful instrumented step preserves the invariant. -/
theorem stepCoreT_inv (cy : Int) (i : Nat) (line : String) (lookSep : Bool)
    (ts ts' : TState) (h : stepCoreT cy i line lookSep ts = .ok ts')
    (hI : InvT ts) : InvT ts' := by
  rcases stepCoreT_shape cy i line lookSep ts with
    ⟨_, heq⟩ | ⟨_, _, heq⟩ | ⟨_, _, alt, path, _, heq⟩ | ⟨_, _, _, _, heq⟩ |
    ⟨_, _, _, _, _, heq⟩ | ⟨_, _, _, _, _, _, r, _, heq⟩ |
    ⟨_, _, _, _, _, _, e, _, heq⟩ | ⟨_, _, _, _, _, _, heq⟩ <;>
    rw [heq] at h <;> cases h
  · exact hI
  · exact InvT_heading line ts hI
  · exact InvT_image _ ts hI
  · exact hI
  · exact hI
  · by_cases ht : ts.in_table = true
    · rw [if_pos ht]
      exact InvT_flush ts hI
    · rw [if_neg ht]
      exact hI
  · by_cases ht : ts.in_table = true
    · rw [if_pos ht]
      exact InvT_content line (flushTableT ts) (InvT_flush ts hI)
    · rw [if_neg ht]
      exact InvT_content line ts hI

/-- Helper: the instrumented loop preserves the invariant. -/
theorem parseLoopT_inv (cy : Int) (lines : List String) :
    ∀ (i : Nat) (ts ts' : TState), parseLoopT cy i lines ts = .ok ts' →
      InvT ts → InvT ts' := by
  induction lines with
  | nil =>
    intro i ts ts' h hI
    cases h
    exact hI
  | cons l rest ih =>
    intro i ts ts' h hI
    unfold parseLoopT at h
    cases hstep : stepLineT cy i l rest.head? ts with
    | ok ts1 =>
      rw [hstep] at h
      exact ih (i + 1) ts1 ts' h (stepCoreT_inv cy i (pyStripS l) _ ts ts1 hstep hI)
    | error e =>
      rw [hstep] at h
      cases h

/-- Helper: the instrumented loop erases to the plain loop. -/
theorem parseLoopT_erase (cy : Int) (lines : List String) :
    ∀ (i : Nat) (ts : TState),
      parseLoop cy i lines (eraseTS ts) = (parseLoopT cy i lines ts).map eraseTS := by
  induction lines with
  | nil => intro i ts; rfl
  | cons l rest ih =>
    intro i ts
    unfold parseLoop parseLoopT
    have he : stepLine cy i l rest.head? (eraseTS ts) =
        (stepLineT cy i l rest.head? ts).map eraseTS :=
      stepCoreT_erase cy i (pyStripS l) _ ts
    rw [he]
    cases stepLineT cy i l rest.head? ts with
    | ok ts1 =>
      show parseLoop cy (i + 1) rest (eraseTS ts1) = _
      exact ih (i + 1) ts1
    | error e => rfl

/-- Helper: the invariant transfers to the finished section list (closed sections
plus the still-open one). -/
theorem InvT_final (ts : TState) (h : InvT ts) :
    sownBy MdSection.tables ts.tables 0 (ts.sections ++ ts.current.toList) = true
    ∧ sownBy MdSection.images ts.images 0 (ts.sections ++ ts.current.toList) = true := by
  obtain ⟨h1, h2, h3, _⟩ := h
  cases hcu : ts.current with
  | none => simpa using ⟨h1, h2⟩
  | some c0 =>
    constructor
    · show sownBy MdSection.tables ts.tables 0 (ts.sections ++ [c0]) = true
      rw [sownBy_snoc]
      simp [h1, Nat.zero_add, (h3 c0 hcu).1]
    · show sownBy MdSection.images ts.images 0 (ts.sections ++ [c0]) = true
      rw [sownBy_snoc]
      simp [h2, Nat.zero_add, (h3 c0 hcu).2]

/-- Claim C8: the instrumented parse tags every flat table/image with the index of
the section open at the moment it was parsed (`none` when none was open); it erases
to the plain parse, and in the result every section's local list is exactly the
sub-list of the flat list tagged with that section's index — so each flat table and
image appears in exactly the section open when it was parsed, or in no section, and
section-local lists contain nothing outside the flat lists. -/
theorem c8_flat_and_section_views (cy : Int) (lines : List String) (tt : TagTree)
    (h : parseTaggedLines cy lines = .ok tt) :
    parseMarkdownLines cy lines = .ok (eraseTree tt (joinNl lines))
    ∧ sownBy MdSection.tables tt.tables 0 tt.sections = true
    ∧ sownBy MdSection.images tt.images 0 tt.sections = true := by
  unfold parseTaggedLines at h
  cases hts : parseLoopT cy 0 lines TState.init with
  | error e =>
    rw [hts] at h
    cases h
  | ok ts =>
    rw [hts] at h
    have htt : tt = { sections := ts.sections ++ ts.current.toList,
                      tables := ts.tables, images := ts.images,
                      references := ts.references } := (Except.ok.inj h).symm
    have hInv := parseLoopT_inv cy lines 0 TState.init ts hts InvT_init
    have hfin := InvT_final ts hInv
    subst htt
    refine ⟨?_, hfin.1, hfin.2⟩
    unfold parseMarkdownLines parseMarkdownWith
    have h0 : ParseState.init = eraseTS TState.init := rfl
    rw [h0, parseLoopT_erase, hts]
    rfl

/-- Claim C8 witness: a document with a table parsed before any section and an
image parsed inside section 0 satisfies the erasure and ownership conclusions. -/
theorem c8_flat_and_section_views_witness :
    parseMarkdownLines 2026 ["|a|b|", "|-|-|", "x", "# S", "![i](p)"] =
      .ok (eraseTree
        { sections := [{ level := 1, title := "S", content := [], tables := [],
                         images := [{ alt_text := "i", path := "p", caption := "i",
                                      line_number := 5 }] }],
          tables := [({ headers := ["a", "b"], rows := [], num_columns := some 2,
                        num_rows := some 0, raw_content := "|a|b|\n|-|-|" }, none)],
          images := [({ alt_text := "i", path := "p", caption := "i",
                        line_number := 5 }, some 0)],
          references := [] }
        (joinNl ["|a|b|", "|-|-|", "x", "# S", "![i](p)"]))
    ∧ sownBy MdSection.tables
        [({ headers := ["a", "b"], rows := [], num_columns := some 2,
            num_rows := some 0, raw_content := "|a|b|\n|-|-|" }, none)] 0
        [{ level := 1, title := "S", content := [], tables := [],
           images := [{ alt_text := "i", path := "p", caption := "i",
                        line_number := 5 }] }] = true
    ∧ sownBy MdSection.images
        [({ alt_text := "i", path := "p", caption := "i", line_number := 5 },
          some 0)] 0
        [{ level := 1, title := "S", content := [], tables := [],
           images := [{ alt_text := "i", path := "p", caption := "i",
                        line_number := 5 }] }] = true :=
  c8_flat_and_section_views 2026 ["|a|b|", "|-|-|", "x", "# S", "![i](p)"]
    { sections := [{ level := 1, title := "S", content := [], tables := [],
                     images := [{ alt_text := "i", path := "p", caption := "i",
                                  line_number := 5 }] }],
      tables := [({ headers := ["a", "b"], rows := [], num_columns := some 2,
                    num_rows := some 0, raw_content := "|a|b|\n|-|-|" }, none)],
      images := [({ alt_text := "i", path := "p", caption := "i",
                    line_number := 5 }, some 0)],
      references := [] }
    rfl
